import Mathlib

/-!
Verification of the Maker core of the coinswap repository.

The definitions below are a shallow embedding of `src/maker/api.rs` and the
constants of `src/maker/server.rs`.  Transactions, scripts, redeemscripts,
public keys and hash values are identified by natural numbers: the Maker code
never inspects their byte contents, it only moves them around, compares them
and hands them to helper primitives.  Helper primitives that live outside the
`maker` module (protocol::contract, the wallet internals, the bitcoind RPC)
are modelled as explicit parameters or as small spec-modelled functions, each
documented at its declaration.  Fallible Rust code (`Result`, `?`) becomes
`Except String`; `Option`-returning code becomes `Option`.
-/

namespace Coinswap

/-! ## Constants, from src/maker/server.rs -/

/-- `pub const REQUIRED_CONFIRMS: BlockHeight = 1;` (src/maker/server.rs line 57) -/
def REQUIRED_CONFIRMS : Nat := 1

/-- `pub const MIN_CONTRACT_REACTION_TIME: u16 = 48;` (src/maker/server.rs line 58) -/
def MIN_CONTRACT_REACTION_TIME : Nat := 48

/-! ## Basic data model -/

/-- `bitcoin::OutPoint`: a reference to an output of a transaction. -/
structure OutPoint where
  txid : Nat
  vout : Nat
deriving DecidableEq, Repr

/-- One entry of `ProofOfFunding.confirmed_funding_txes`.  The funding
transaction itself is represented by its txid (`funding_tx.compute_txid()` is
the only use the Maker makes of it). -/
structure FundingInfo where
  funding_txid : Nat
  multisig_redeemscript : Nat
  multisig_nonce : Nat
  contract_redeemscript : Nat
  hashlock_nonce : Nat
deriving DecidableEq, Repr

/-- `protocol::messages::ProofOfFunding`. -/
structure ProofOfFunding where
  confirmed_funding_txes : List FundingInfo
  next_locktime : Nat
deriving DecidableEq, Repr

/-- The part of bitcoind's `get_tx_out` result that the Maker reads. -/
structure TxOutInfo where
  confirmations : Nat
deriving DecidableEq, Repr

/-- The wallet's contract cache: a finite map `prev_outpoint ↦ contract
scriptPubKey`, represented as an association list. -/
abbrev ContractCache : Type := List (OutPoint × Nat)

/-- Lookup in the contract cache (first matching entry). -/
def cacheLookup (cache : ContractCache) (op : OutPoint) : Option Nat :=
  (cache.find? (fun e => decide (e.1 = op))).map (fun e => e.2)

/-- Modelled from the spec: `Wallet::does_prevout_match_cached_contract` lives
in the wallet module, which is not under src/.  Per spec §4.2 (vi) and §3
"Contract Cache", it checks that the contract's scriptPubKey matches the
cached contract established earlier for the same outpoint; an outpoint with
no cache entry does not match. -/
def does_prevout_match_cached_contract (cache : ContractCache) (op : OutPoint)
    (spk : Nat) : Bool :=
  match cacheLookup cache op with
  | some spk2 => spk2 = spk
  | none => false

/-- The helper primitives that `verify_proof_of_funding` calls and that are
defined outside src/ (protocol::contract and the wallet/RPC layer).  They are
carried as opaque-to-the-theorems function parameters so that each theorem can
state exactly which of them succeed.  Field names follow the Rust callees. -/
structure MakerEnv where
  read_contract_locktime : Nat → Except String Nat
  find_funding_output_index : FundingInfo → Except String Nat
  get_tx_out : Nat → Nat → Option TxOutInfo
  check_reedemscript_is_multisig : Nat → Except String Unit
  tweakable_pubkey : Nat
  check_multisig_has_pubkey : Nat → Nat → Nat → Except String Unit
  check_hashlock_has_pubkey : Nat → Nat → Nat → Except String Unit
  redeemscript_to_scriptpubkey : Nat → Except String Nat
  check_hashvalues_are_equal : ProofOfFunding → Except String Nat

/-! ## verify_proof_of_funding (src/maker/api.rs lines 273-345)

The Rust body is a for-loop over `message.confirmed_funding_txes` whose every
check early-returns an error via `?` or an explicit `return Err`.  It is
embedded as a per-entry checker folded over the list, followed by
`check_hashvalues_are_equal`. -/

/-- The body of the for-loop of `verify_proof_of_funding` for one
`funding_info` entry, in source order. -/
def verifyFundingEntry (env : MakerEnv) (cache : ContractCache)
    (next_locktime : Nat) (fi : FundingInfo) : Except String Unit :=
  match env.read_contract_locktime fi.contract_redeemscript with
  | Except.error e => Except.error e
  | Except.ok locktime =>
    if locktime - next_locktime < MIN_CONTRACT_REACTION_TIME then
      Except.error "Next hop locktime too close to current hop locktime"
    else
      match env.find_funding_output_index fi with
      | Except.error e => Except.error e
      | Except.ok funding_output_index =>
        match env.get_tx_out fi.funding_txid funding_output_index with
        | some txout =>
          if txout.confirmations < REQUIRED_CONFIRMS then
            Except.error "funding tx not confirmed to required depth"
          else
            match env.check_reedemscript_is_multisig fi.multisig_redeemscript with
            | Except.error e => Except.error e
            | Except.ok _ =>
              match env.check_multisig_has_pubkey fi.multisig_redeemscript
                  env.tweakable_pubkey fi.multisig_nonce with
              | Except.error e => Except.error e
              | Except.ok _ =>
                match env.check_hashlock_has_pubkey fi.contract_redeemscript
                    env.tweakable_pubkey fi.hashlock_nonce with
                | Except.error e => Except.error e
                | Except.ok _ =>
                  match env.redeemscript_to_scriptpubkey fi.contract_redeemscript with
                  | Except.error e => Except.error e
                  | Except.ok contract_spk =>
                    if does_prevout_match_cached_contract cache
                        (OutPoint.mk fi.funding_txid funding_output_index)
                        contract_spk then
                      Except.ok ()
                    else
                      Except.error "provided contract does not match sender contract tx, rejecting"
        | none => Except.error "funding tx output doesnt exist"

/-- The for-loop of `verify_proof_of_funding`: check entries left to right,
stopping at the first error. -/
def verifyFundingEntries (env : MakerEnv) (cache : ContractCache)
    (next_locktime : Nat) : List FundingInfo → Except String Unit
  | [] => Except.ok ()
  | fi :: rest =>
    match verifyFundingEntry env cache next_locktime fi with
    | Except.error e => Except.error e
    | Except.ok _ => verifyFundingEntries env cache next_locktime rest

/-- `Maker::verify_proof_of_funding` (src/maker/api.rs lines 273-345). -/
def verify_proof_of_funding (env : MakerEnv) (cache : ContractCache)
    (message : ProofOfFunding) : Except String Nat :=
  if message.confirmed_funding_txes.isEmpty then
    Except.error "No funding txs provided by Taker"
  else
    match verifyFundingEntries env cache message.next_locktime
        message.confirmed_funding_txes with
    | Except.error e => Except.error e
    | Except.ok _ => env.check_hashvalues_are_equal message

/-! ## verify_and_sign_contract_tx (src/maker/api.rs lines 348-414) -/

/-- `bitcoin::TxIn`, restricted to the field the Maker reads. -/
structure TxIn where
  previous_output : OutPoint
deriving DecidableEq, Repr

/-- `bitcoin::TxOut`, restricted to the field the Maker reads. -/
structure TxOut where
  script_pubkey : Nat
deriving DecidableEq, Repr

/-- `bitcoin::Transaction`: the txid stands for `compute_txid()`. -/
structure Transaction where
  txid : Nat
  input : List TxIn
  output : List TxOut
deriving DecidableEq, Repr

/-- One entry of `ReqContractSigsForSender.txs_info`. -/
structure ContractTxInfoForSender where
  multisig_redeemscript : Nat
  multisig_nonce : Nat
  timelock_pubkey : Nat
  hashlock_nonce : Nat
  senders_contract_tx : Transaction
  funding_input_value : Nat
deriving DecidableEq, Repr

/-- `protocol::messages::ReqContractSigsForSender`. -/
structure ReqContractSigsForSender where
  txs_info : List ContractTxInfoForSender
  hashvalue : Nat
  locktime : Nat
deriving DecidableEq, Repr

/-- Whether an `Except` result is an error. -/
def isErr {ε α : Type} : Except ε α → Bool
  | Except.error _ => true
  | Except.ok _ => false

/-- The helper primitives that `verify_and_sign_contract_tx` calls and that
are defined outside src/ (secp tweaking, script validation, signing).  Field
names follow the Rust callees; `pubkey_of_privkey` stands for
`secp256k1::PublicKey::from_secret_key`. -/
structure SignEnv where
  tweakable_privkey : Nat
  tweakable_pubkey : Nat
  check_multisig_has_pubkey : Nat → Nat → Nat → Except String Unit
  add_tweak : Nat → Nat → Except String Nat
  pubkey_of_privkey : Nat → Nat
  is_contract_out_valid : TxOut → Nat → Nat → Nat → Nat → Nat → Except String Unit
  sign_contract_tx : Transaction → Nat → Nat → Nat → Except String Nat

/-- Modelled from the spec: `Wallet::cache_prevout_to_contract` lives in the
wallet module, which is not under src/.  Per spec §3 "Contract Cache" and
invariant I2, the cache is append-only and injective: inserting a pair whose
outpoint is already mapped to a different scriptPubKey fails; re-inserting an
identical pair is accepted without change. -/
def cache_prevout_to_contract (cache : ContractCache) (op : OutPoint)
    (spk : Nat) : Except String ContractCache :=
  match cacheLookup cache op with
  | some spk2 =>
    if spk2 = spk then Except.ok cache
    else Except.error "contract cache conflict"
  | none => Except.ok ((op, spk) :: cache)

/-- The for-loop of `verify_and_sign_contract_tx`, threading the contract
cache (the only wallet state it writes) and collecting signatures; the first
failing check discards everything (the Rust `return Err` / `?`). -/
def signContractEntries (env : SignEnv) (hashvalue locktime : Nat) :
    ContractCache → List ContractTxInfoForSender → Except String (List Nat)
  | _, [] => Except.ok []
  | cache, txinfo :: rest =>
    match txinfo.senders_contract_tx.input, txinfo.senders_contract_tx.output with
    | [txin], [txout] =>
      if does_prevout_match_cached_contract cache txin.previous_output
          txout.script_pubkey then
        match env.check_multisig_has_pubkey txinfo.multisig_redeemscript
            env.tweakable_pubkey txinfo.multisig_nonce with
        | Except.error e => Except.error e
        | Except.ok _ =>
          match env.add_tweak env.tweakable_privkey txinfo.hashlock_nonce with
          | Except.error e => Except.error e
          | Except.ok hashlock_privkey =>
            match env.is_contract_out_valid txout
                (env.pubkey_of_privkey hashlock_privkey) txinfo.timelock_pubkey
                hashvalue locktime MIN_CONTRACT_REACTION_TIME with
            | Except.error e => Except.error e
            | Except.ok _ =>
              match cache_prevout_to_contract cache txin.previous_output
                  txout.script_pubkey with
              | Except.error e => Except.error e
              | Except.ok cache2 =>
                match env.add_tweak env.tweakable_privkey txinfo.multisig_nonce with
                | Except.error e => Except.error e
                | Except.ok multisig_privkey =>
                  match env.sign_contract_tx txinfo.senders_contract_tx
                      txinfo.multisig_redeemscript txinfo.funding_input_value
                      multisig_privkey with
                  | Except.error e => Except.error e
                  | Except.ok sig =>
                    match signContractEntries env hashvalue locktime cache2 rest with
                    | Except.error e => Except.error e
                    | Except.ok sigs => Except.ok (sig :: sigs)
      else
        Except.error "taker attempting multiple contract attack, rejecting"
    | _, _ =>
      Except.error "invalid number of inputs or outputs in contract transaction"

/-- `Maker::verify_and_sign_contract_tx` (src/maker/api.rs lines 348-414). -/
def verify_and_sign_contract_tx (env : SignEnv) (cache : ContractCache)
    (message : ReqContractSigsForSender) : Except String (List Nat) :=
  signContractEntries env message.hashvalue message.locktime cache
    message.txs_info

/-- If the cached-contract check passes, re-inserting the same pair leaves
the cache unchanged. -/
theorem cache_prevout_of_match (cache : ContractCache) (op : OutPoint)
    (spk : Nat)
    (h : does_prevout_match_cached_contract cache op spk = true) :
    cache_prevout_to_contract cache op spk = Except.ok cache := by
  cases hl : cacheLookup cache op with
  | none => simp [does_prevout_match_cached_contract, hl] at h
  | some spk2 =>
    simp only [does_prevout_match_cached_contract, hl, decide_eq_true_eq] at h
    simp [cache_prevout_to_contract, hl, h]

/-- Inversion of one successful step of `signContractEntries`. -/
theorem signContractEntries_cons_ok
    (env : SignEnv) (hv lt : Nat) (cache : ContractCache)
    (ti : ContractTxInfoForSender) (rest : List ContractTxInfoForSender)
    (sigs : List Nat)
    (hok : signContractEntries env hv lt cache (ti :: rest) = Except.ok sigs) :
    ∃ txin txout sig sigs2,
      ti.senders_contract_tx.input = [txin] ∧
      ti.senders_contract_tx.output = [txout] ∧
      does_prevout_match_cached_contract cache txin.previous_output
        txout.script_pubkey = true ∧
      signContractEntries env hv lt cache rest = Except.ok sigs2 ∧
      sigs = sig :: sigs2 := by
  rw [signContractEntries] at hok
  split at hok
  case h_2 => exact absurd hok (by simp)
  case h_1 txin txout hin hout =>
    split at hok
    case isFalse => exact absurd hok (by simp)
    case isTrue hmatch =>
      rw [cache_prevout_of_match _ _ _ hmatch] at hok
      cases h1 : env.check_multisig_has_pubkey ti.multisig_redeemscript
          env.tweakable_pubkey ti.multisig_nonce with
      | error e => rw [h1] at hok; exact absurd hok (by simp)
      | ok u1 =>
        rw [h1] at hok
        simp only [] at hok
        cases h2 : env.add_tweak env.tweakable_privkey ti.hashlock_nonce with
        | error e => rw [h2] at hok; exact absurd hok (by simp)
        | ok hpriv =>
          rw [h2] at hok
          simp only [] at hok
          cases h3 : env.is_contract_out_valid txout
              (env.pubkey_of_privkey hpriv) ti.timelock_pubkey hv lt
              MIN_CONTRACT_REACTION_TIME with
          | error e => rw [h3] at hok; exact absurd hok (by simp)
          | ok u2 =>
            rw [h3] at hok
            simp only [] at hok
            cases h4 : env.add_tweak env.tweakable_privkey ti.multisig_nonce with
            | error e => rw [h4] at hok; exact absurd hok (by simp)
            | ok mpriv =>
              rw [h4] at hok
              simp only [] at hok
              cases h5 : env.sign_contract_tx ti.senders_contract_tx
                  ti.multisig_redeemscript ti.funding_input_value mpriv with
              | error e => rw [h5] at hok; exact absurd hok (by simp)
              | ok sig =>
                rw [h5] at hok
                simp only [] at hok
                cases h6 : signContractEntries env hv lt cache rest with
                | error e => rw [h6] at hok; exact absurd hok (by simp)
                | ok sigs2 =>
                  rw [h6] at hok
                  simp only [Except.ok.injEq] at hok
                  exact ⟨txin, txout, sig, sigs2, hin, hout, hmatch, rfl,
                    hok.symm⟩

/-- Everything in a successful run has the singleton shape and matches the
initial cache (a successful step never changes the cache). -/
theorem signContractEntries_ok_shape
    (env : SignEnv) (hv lt : Nat) (cache : ContractCache) :
    ∀ (l : List ContractTxInfoForSender) (sigs : List Nat),
      signContractEntries env hv lt cache l = Except.ok sigs →
      sigs.length = l.length ∧
      ∀ ti ∈ l, ∃ txin txout,
        ti.senders_contract_tx.input = [txin] ∧
        ti.senders_contract_tx.output = [txout] ∧
        does_prevout_match_cached_contract cache txin.previous_output
          txout.script_pubkey = true := by
  intro l
  induction l with
  | nil =>
    intro sigs hok
    rw [signContractEntries] at hok
    simp only [Except.ok.injEq] at hok
    simp [← hok]
  | cons ti rest ih =>
    intro sigs hok
    obtain ⟨txin, txout, sig, sigs2, hin, hout, hmatch, hrec, hsigs⟩ :=
      signContractEntries_cons_ok env hv lt cache ti rest sigs hok
    obtain ⟨hlen, hall⟩ := ih sigs2 hrec
    refine ⟨by simp [hsigs, hlen], ?_⟩
    intro tj hj
    rcases List.mem_cons.mp hj with h | h
    · subst h; exact ⟨txin, txout, hin, hout, hmatch⟩
    · exact hall tj h

/-- C8: `verify_and_sign_contract_tx` returns `Ok` with exactly one signature
per requested contract transaction only if every requested transaction has
exactly one input and one output whose prev_outpoint/scriptPubKey pair
matches the contract cache; any shape failure yields an error, which by the
return type carries no signatures. -/
theorem verify_and_sign_all_or_nothing
    (env : SignEnv) (cache : ContractCache)
    (message : ReqContractSigsForSender) :
    (∀ sigs, verify_and_sign_contract_tx env cache message = Except.ok sigs →
      sigs.length = message.txs_info.length ∧
      ∀ txinfo ∈ message.txs_info, ∃ txin txout,
        txinfo.senders_contract_tx.input = [txin] ∧
        txinfo.senders_contract_tx.output = [txout] ∧
        does_prevout_match_cached_contract cache txin.previous_output
          txout.script_pubkey = true) ∧
    ((∃ txinfo ∈ message.txs_info,
        txinfo.senders_contract_tx.input.length ≠ 1 ∨
        txinfo.senders_contract_tx.output.length ≠ 1) →
      isErr (verify_and_sign_contract_tx env cache message) = true) := by
  constructor
  · intro sigs hok
    exact signContractEntries_ok_shape env message.hashvalue message.locktime
      cache message.txs_info sigs hok
  · rintro ⟨ti, hmem, hbad⟩
    cases hres : verify_and_sign_contract_tx env cache message with
    | error e => rfl
    | ok sigs =>
      obtain ⟨_, hall⟩ := signContractEntries_ok_shape env message.hashvalue
        message.locktime cache message.txs_info sigs hres
      obtain ⟨txin, txout, hin, hout, _⟩ := hall ti hmem
      rcases hbad with hbad | hbad
      · exact absurd (by rw [hin]; rfl) hbad
      · exact absurd (by rw [hout]; rfl) hbad

/-- Concrete instances for the C8 witness. -/
def envS : SignEnv where
  tweakable_privkey := 1
  tweakable_pubkey := 2
  check_multisig_has_pubkey := fun _ _ _ => Except.ok ()
  add_tweak := fun a b => Except.ok (a + b)
  pubkey_of_privkey := fun k => k
  is_contract_out_valid := fun _ _ _ _ _ _ => Except.ok ()
  sign_contract_tx := fun _ _ _ _ => Except.ok 77

/-- A well-shaped contract transaction spending outpoint (8,0) to spk 5. -/
def txS : Transaction :=
  Transaction.mk 50 [TxIn.mk (OutPoint.mk 8 0)] [TxOut.mk 5]

/-- Cache holding exactly the entry that `txS` needs. -/
def cacheS : ContractCache := [(OutPoint.mk 8 0, 5)]

/-- A request with one well-shaped entry. -/
def msgS : ReqContractSigsForSender :=
  ReqContractSigsForSender.mk [ContractTxInfoForSender.mk 4 0 3 0 txS 1000] 9 100

/-- A request whose only entry has zero inputs and outputs. -/
def msgSbad : ReqContractSigsForSender :=
  ReqContractSigsForSender.mk
    [ContractTxInfoForSender.mk 4 0 3 0 (Transaction.mk 51 [] []) 1000] 9 100

/-- Witness for C8: the well-shaped request is signed with one signature, and
the malformed request makes the whole call error. -/
theorem verify_and_sign_all_or_nothing_witness :
    verify_and_sign_contract_tx envS cacheS msgS = Except.ok [77] ∧
    isErr (verify_and_sign_contract_tx envS cacheS msgSbad) = true :=
  ⟨rfl,
    (verify_and_sign_all_or_nothing envS cacheS msgSbad).2
      ⟨ContractTxInfoForSender.mk 4 0 3 0 (Transaction.mk 51 [] []) 1000,
        by decide, Or.inl (by decide)⟩⟩

/-! ## recover_from_swap (src/maker/api.rs lines 622-781)

`recover_from_swap(maker, outgoings, incomings)` takes
`outgoings : Vec<((ScriptBuf, Transaction), (u16, Transaction))>` — per entry
`((multisig_redeemscript, contract_tx), (relative_timelock, timelock_spend_tx))`
— and `incomings : Vec<(ScriptBuf, Transaction)>`.  Transactions appear below
as their txids (the function only ever calls `compute_txid`, broadcasts them
and compares them for equality).  The bitcoind node is modelled as a view
`txid ↦ Option confirmations` (absent = `get_raw_transaction_info` errors,
`none` = known but unconfirmed); the view used by the maturity loop is indexed
by the scan round, mirroring the sleeps between passes.  Broadcasts, removals,
sync and save are recorded as an event trace. -/

/-- One outgoing entry of a recovery trigger:
`((multisig_redeemscript, contract_txid), (relative_timelock, timelock_spend_txid))`. -/
abbrev OutgoingEntry : Type := (Nat × Nat) × (Nat × Nat)

/-- One incoming entry: `(multisig_redeemscript, contract_txid)`. -/
abbrev IncomingEntry : Type := Nat × Nat

/-- The node's answer set for `get_raw_transaction_info`. -/
structure NodeView where
  txs : List (Nat × Option Nat)
deriving DecidableEq, Repr

/-- `rpc.get_raw_transaction_info(txid)`: `none` when the node errors (tx
unknown), otherwise the optional confirmation count. -/
def NodeView.get_raw_transaction_info (node : NodeView) (txid : Nat) :
    Option (Option Nat) :=
  (node.txs.find? (fun e => decide (e.1 = txid))).map (fun e => e.2)

/-- The wallet state that `recover_from_swap` mutates: the swapcoins keyed by
their multisig redeemscript, plus flags recording that `sync` and
`save_to_disk` have run. -/
structure Wallet where
  incoming_swapcoins : List Nat
  outgoing_swapcoins : List Nat
  synced : Bool
  saved : Bool
deriving DecidableEq, Repr

/-- Modelled from the spec: `Wallet::remove_incoming_swapcoin` lives in the
wallet module, which is not under src/.  It removes the swapcoin keyed by the
multisig redeemscript and returns it, or `None` when no such coin exists (the
Rust caller `.expect`s the result). -/
def Wallet.remove_incoming_swapcoin (w : Wallet) (rs : Nat) : Option Wallet :=
  if rs ∈ w.incoming_swapcoins then
    some { w with incoming_swapcoins := w.incoming_swapcoins.erase rs }
  else none

/-- Modelled from the spec: `Wallet::remove_outgoing_swapcoin`, the outgoing
counterpart of `remove_incoming_swapcoin`. -/
def Wallet.remove_outgoing_swapcoin (w : Wallet) (rs : Nat) : Option Wallet :=
  if rs ∈ w.outgoing_swapcoins then
    some { w with outgoing_swapcoins := w.outgoing_swapcoins.erase rs }
  else none

/-- Observable actions of `recover_from_swap`, in execution order. -/
inductive REvent where
  | broadcastContract (txid : Nat)
  | alreadyBroadcast (txid : Nat)
  | removeIncoming (rs : Nat)
  | broadcastTimelock (txid : Nat)
  | removeOutgoing (rs : Nat)
  | sync
  | save
deriving DecidableEq, Repr

/-- The first loop of `recover_from_swap` (lines 630-666): for each incoming
entry, broadcast the contract tx unless the node already reports it, then
remove the matching IncomingSwapCoin (`.expect` panics — here an error — when
it is absent). -/
def processIncomings (node : NodeView) :
    Wallet → List IncomingEntry → Except String (Wallet × List REvent)
  | w, [] => Except.ok (w, [])
  | w, (rs, txid) :: rest =>
    let ev := if (node.get_raw_transaction_info txid).isSome then
        REvent.alreadyBroadcast txid
      else
        REvent.broadcastContract txid
    match w.remove_incoming_swapcoin rs with
    | none => Except.error "Incoming swapcoin expected"
    | some w2 =>
      match processIncomings node w2 rest with
      | Except.error e => Except.error e
      | Except.ok (w3, evs) =>
        Except.ok (w3, ev :: REvent.removeIncoming rs :: evs)

/-- The second loop (lines 671-696): broadcast each outgoing contract tx
unless the node already reports it. -/
def broadcastOutgoings (node : NodeView) (outgoings : List OutgoingEntry) :
    List REvent :=
  outgoings.map (fun e =>
    if (node.get_raw_transaction_info e.1.2).isSome then
      REvent.alreadyBroadcast e.1.2
    else
      REvent.broadcastContract e.1.2)

/-- One pass of the maturity loop (lines 701-745): for each outgoing entry
whose timelock-spend was not broadcast yet, if the node reports the contract
tx with `Some(confirmation)` and `confirmation > timelock`, broadcast the
timelock-spend and record it.  Returns the updated `timelock_boardcasted`
list and the events of the pass. -/
def maturityPass (node : NodeView) :
    List OutgoingEntry → List Nat → List Nat × List REvent
  | [], broadcasted => (broadcasted, [])
  | ((_, contract), (timelock, tlx)) :: rest, broadcasted =>
    if tlx ∈ broadcasted then
      maturityPass node rest broadcasted
    else
      match node.get_raw_transaction_info contract with
      | some (some confirmation) =>
        if timelock < confirmation then
          let res := maturityPass node rest (broadcasted ++ [tlx])
          (res.1, REvent.broadcastTimelock tlx :: res.2)
        else
          maturityPass node rest broadcasted
      | some none => maturityPass node rest broadcasted
      | none => maturityPass node rest broadcasted

/-- The finalize step (lines 747-760): remove every OutgoingSwapCoin of the
trigger from the wallet (`.expect` — an error — when one is absent). -/
def removeOutgoings :
    Wallet → List OutgoingEntry → Except String (Wallet × List REvent)
  | w, [] => Except.ok (w, [])
  | w, ((rs, _), _) :: rest =>
    match w.remove_outgoing_swapcoin rs with
    | none => Except.error "outgoing swapcoin expected"
    | some w2 =>
      match removeOutgoings w2 rest with
      | Except.error e => Except.error e
      | Except.ok (w3, evs) =>
        Except.ok (w3, REvent.removeOutgoing rs :: evs)

/-- The unbounded `loop` of lines 700-780, with the scan sleep replaced by
advancing the round index into the node views, and a fuel bound: the Rust
loop never terminates unless the finalize branch returns, which the `fuel = 0`
error mirrors.  After each pass, when every timelock-spend has been
broadcast, finalize: remove the outgoing swapcoins, `sync`, `save_to_disk`
and return. -/
def recoverLoop (nodes : Nat → NodeView) (outgoings : List OutgoingEntry) :
    Nat → Nat → List Nat → Wallet → Except String (Wallet × List REvent)
  | _, 0, _, _ => Except.error "scan budget exhausted"
  | round, fuel + 1, broadcasted, w =>
    let pass := maturityPass (nodes round) outgoings broadcasted
    if pass.1.length = outgoings.length then
      match removeOutgoings w outgoings with
      | Except.error e => Except.error e
      | Except.ok (w2, evs2) =>
        Except.ok ({ w2 with synced := true, saved := true },
          pass.2 ++ evs2 ++ [REvent.sync, REvent.save])
    else
      match recoverLoop nodes outgoings (round + 1) fuel pass.1 w with
      | Except.error e => Except.error e
      | Except.ok (w3, evs3) => Except.ok (w3, pass.2 ++ evs3)

/-- `recover_from_swap` (src/maker/api.rs lines 622-781): incomings phase,
`save_to_disk` (line 668), outgoing-contract broadcast phase, then the
maturity/finalize loop.  `node0` is the node view during the two broadcast
phases; `nodes round` is the view at each maturity scan. -/
def recover_from_swap (node0 : NodeView) (nodes : Nat → NodeView)
    (outgoings : List OutgoingEntry) (incomings : List IncomingEntry)
    (w : Wallet) (fuel : Nat) : Except String (Wallet × List REvent) :=
  match processIncomings node0 w incomings with
  | Except.error e => Except.error e
  | Except.ok (w1, evs1) =>
    let w2 := { w1 with saved := true }
    let evsOut := broadcastOutgoings node0 outgoings
    match recoverLoop nodes outgoings 0 fuel [] w2 with
    | Except.error e => Except.error e
    | Except.ok (w3, evs3) =>
      Except.ok (w3, evs1 ++ [REvent.save] ++ evsOut ++ evs3)

/-! ## Lemmas about the recovery phases -/

/-- Inversion of a successful `remove_incoming_swapcoin`. -/
theorem remove_incoming_some (w : Wallet) (rs : Nat) (w2 : Wallet)
    (h : w.remove_incoming_swapcoin rs = some w2) :
    rs ∈ w.incoming_swapcoins ∧
    w2 = { w with incoming_swapcoins := w.incoming_swapcoins.erase rs } := by
  unfold Wallet.remove_incoming_swapcoin at h
  split at h
  case isTrue hmem => exact ⟨hmem, (Option.some_inj.mp h).symm⟩
  case isFalse => cases h

/-- Inversion of a successful `remove_outgoing_swapcoin`. -/
theorem remove_outgoing_some (w : Wallet) (rs : Nat) (w2 : Wallet)
    (h : w.remove_outgoing_swapcoin rs = some w2) :
    rs ∈ w.outgoing_swapcoins ∧
    w2 = { w with outgoing_swapcoins := w.outgoing_swapcoins.erase rs } := by
  unfold Wallet.remove_outgoing_swapcoin at h
  split at h
  case isTrue hmem => exact ⟨hmem, (Option.some_inj.mp h).symm⟩
  case isFalse => cases h

/-- Inversion of one successful step of `processIncomings`. -/
theorem processIncomings_cons_ok (node : NodeView) (w : Wallet)
    (rs txid : Nat) (rest : List IncomingEntry) (w' : Wallet)
    (evs : List REvent)
    (hok : processIncomings node w ((rs, txid) :: rest) =
      Except.ok (w', evs)) :
    ∃ w2 evs2, w.remove_incoming_swapcoin rs = some w2 ∧
      processIncomings node w2 rest = Except.ok (w', evs2) ∧
      evs = (if (node.get_raw_transaction_info txid).isSome then
          REvent.alreadyBroadcast txid
        else
          REvent.broadcastContract txid) :: REvent.removeIncoming rs :: evs2 := by
  rw [processIncomings] at hok
  cases hrem : w.remove_incoming_swapcoin rs with
  | none => rw [hrem] at hok; exact absurd hok (by simp)
  | some w2 =>
    rw [hrem] at hok
    simp only [] at hok
    cases hrec : processIncomings node w2 rest with
    | error e => rw [hrec] at hok; exact absurd hok (by simp)
    | ok res =>
      rw [hrec] at hok
      simp only [] at hok
      obtain ⟨w3, evs3⟩ := res
      simp only [Except.ok.injEq, Prod.mk.injEq] at hok
      obtain ⟨hw, hevs⟩ := hok
      exact ⟨w2, evs3, rfl, by rw [hrec, hw], hevs.symm⟩

/-- A successful incomings phase leaves the outgoing swapcoins and the flags
untouched, only shrinks the incoming swapcoins, and (when the wallet keys
are distinct, which the wallet's keyed storage guarantees) removes every
redeemscript named by the trigger. -/
theorem processIncomings_ok_spec (node : NodeView) :
    ∀ (l : List IncomingEntry) (w w' : Wallet) (evs : List REvent),
      processIncomings node w l = Except.ok (w', evs) →
      w'.outgoing_swapcoins = w.outgoing_swapcoins ∧
      w'.synced = w.synced ∧ w'.saved = w.saved ∧
      w'.incoming_swapcoins.Sublist w.incoming_swapcoins ∧
      (w.incoming_swapcoins.Nodup →
        ∀ p ∈ l, p.1 ∉ w'.incoming_swapcoins) := by
  intro l
  induction l with
  | nil =>
    intro w w' evs hok
    rw [processIncomings] at hok
    simp only [Except.ok.injEq, Prod.mk.injEq] at hok
    obtain ⟨hw, _⟩ := hok
    subst hw
    exact ⟨rfl, rfl, rfl, List.Sublist.refl _, fun _ p hp => absurd hp (by simp)⟩
  | cons hd rest ih =>
    intro w w' evs hok
    obtain ⟨rs, txid⟩ := hd
    obtain ⟨w2, evs2, hrem, hrec, _⟩ :=
      processIncomings_cons_ok node w rs txid rest w' evs hok
    obtain ⟨hmem, hw2⟩ := remove_incoming_some w rs w2 hrem
    obtain ⟨hout, hsync, hsave, hsub, hnonmem⟩ := ih w2 w' evs2 hrec
    have hw2in : w2.incoming_swapcoins = w.incoming_swapcoins.erase rs := by
      rw [hw2]
    refine ⟨by rw [hout, hw2], by rw [hsync, hw2], by rw [hsave, hw2],
      ?_, ?_⟩
    · have hsub2 : w'.incoming_swapcoins.Sublist
          (w.incoming_swapcoins.erase rs) := by
        rw [← hw2in]; exact hsub
      exact hsub2.trans (List.erase_sublist rs w.incoming_swapcoins)
    · intro hnd p hp
      have hnd2 : w2.incoming_swapcoins.Nodup := by
        rw [hw2in]; exact hnd.erase rs
      rcases List.mem_cons.mp hp with h | h
      · subst h
        intro hmem'
        have h2 : rs ∈ w2.incoming_swapcoins := hsub.subset hmem'
        rw [hw2in] at h2
        exact (hnd.mem_erase_iff.mp h2).1 rfl
      · exact hnonmem hnd2 p h

/-- Every event of the incomings phase names an entry of the incomings list. -/
theorem processIncomings_events_shape (node : NodeView) :
    ∀ (l : List IncomingEntry) (w w' : Wallet) (evs : List REvent),
      processIncomings node w l = Except.ok (w', evs) →
      ∀ e ∈ evs, ∃ p ∈ l,
        e = REvent.alreadyBroadcast p.2 ∨ e = REvent.broadcastContract p.2 ∨
        e = REvent.removeIncoming p.1 := by
  intro l
  induction l with
  | nil =>
    intro w w' evs hok
    rw [processIncomings] at hok
    simp only [Except.ok.injEq, Prod.mk.injEq] at hok
    obtain ⟨_, hevs⟩ := hok
    subst hevs
    intro e he
    exact absurd he (by simp)
  | cons hd rest ih =>
    intro w w' evs hok
    obtain ⟨rs, txid⟩ := hd
    obtain ⟨w2, evs2, _, hrec, hevs⟩ :=
      processIncomings_cons_ok node w rs txid rest w' evs hok
    subst hevs
    intro e he
    rcases List.mem_cons.mp he with h | he2
    · refine ⟨(rs, txid), List.mem_cons_self _ _, ?_⟩
      subst h
      split
      · exact Or.inl rfl
      · exact Or.inr (Or.inl rfl)
    · rcases List.mem_cons.mp he2 with h | he3
      · exact ⟨(rs, txid), List.mem_cons_self _ _, Or.inr (Or.inr h)⟩
      · obtain ⟨p, hp, hshape⟩ := ih w2 w' evs2 hrec e he3
        exact ⟨p, List.mem_cons_of_mem _ hp, hshape⟩

/-- Inversion of one successful step of `removeOutgoings`. -/
theorem removeOutgoings_cons_ok (w : Wallet) (rs ctx tl tlx : Nat)
    (rest : List OutgoingEntry) (w' : Wallet) (evs : List REvent)
    (hok : removeOutgoings w (((rs, ctx), (tl, tlx)) :: rest) =
      Except.ok (w', evs)) :
    ∃ w2 evs2, w.remove_outgoing_swapcoin rs = some w2 ∧
      removeOutgoings w2 rest = Except.ok (w', evs2) ∧
      evs = REvent.removeOutgoing rs :: evs2 := by
  rw [removeOutgoings] at hok
  cases hrem : w.remove_outgoing_swapcoin rs with
  | none => rw [hrem] at hok; exact absurd hok (by simp)
  | some w2 =>
    rw [hrem] at hok
    simp only [] at hok
    cases hrec : removeOutgoings w2 rest with
    | error e => rw [hrec] at hok; exact absurd hok (by simp)
    | ok res =>
      rw [hrec] at hok
      simp only [] at hok
      obtain ⟨w3, evs3⟩ := res
      simp only [Except.ok.injEq, Prod.mk.injEq] at hok
      obtain ⟨hw, hevs⟩ := hok
      exact ⟨w2, evs3, rfl, by rw [hrec, hw], hevs.symm⟩

/-- A successful finalize removal leaves the incoming swapcoins and flags
untouched, shrinks the outgoing swapcoins, removes every outgoing
redeemscript of the trigger (under distinct wallet keys), and emits only
`removeOutgoing` events. -/
theorem removeOutgoings_ok_spec :
    ∀ (l : List OutgoingEntry) (w w' : Wallet) (evs : List REvent),
      removeOutgoings w l = Except.ok (w', evs) →
      w'.incoming_swapcoins = w.incoming_swapcoins ∧
      w'.synced = w.synced ∧ w'.saved = w.saved ∧
      w'.outgoing_swapcoins.Sublist w.outgoing_swapcoins ∧
      (w.outgoing_swapcoins.Nodup →
        ∀ e ∈ l, e.1.1 ∉ w'.outgoing_swapcoins) ∧
      (∀ e ∈ evs, ∃ rs, e = REvent.removeOutgoing rs) := by
  intro l
  induction l with
  | nil =>
    intro w w' evs hok
    rw [removeOutgoings] at hok
    simp only [Except.ok.injEq, Prod.mk.injEq] at hok
    obtain ⟨hw, hevs⟩ := hok
    subst hw
    subst hevs
    exact ⟨rfl, rfl, rfl, List.Sublist.refl _,
      fun _ p hp => absurd hp (by simp), fun e he => absurd he (by simp)⟩
  | cons hd rest ih =>
    intro w w' evs hok
    obtain ⟨⟨rs, ctx⟩, tl, tlx⟩ := hd
    obtain ⟨w2, evs2, hrem, hrec, hevs⟩ :=
      removeOutgoings_cons_ok w rs ctx tl tlx rest w' evs hok
    obtain ⟨hmem, hw2⟩ := remove_outgoing_some w rs w2 hrem
    obtain ⟨hin, hsync, hsave, hsub, hnonmem, hshape⟩ := ih w2 w' evs2 hrec
    have hw2out : w2.outgoing_swapcoins = w.outgoing_swapcoins.erase rs := by
      rw [hw2]
    refine ⟨by rw [hin, hw2], by rw [hsync, hw2], by rw [hsave, hw2],
      ?_, ?_, ?_⟩
    · have hsub2 : w'.outgoing_swapcoins.Sublist
          (w.outgoing_swapcoins.erase rs) := by
        rw [← hw2out]; exact hsub
      exact hsub2.trans (List.erase_sublist rs w.outgoing_swapcoins)
    · intro hnd p hp
      have hnd2 : w2.outgoing_swapcoins.Nodup := by
        rw [hw2out]; exact hnd.erase rs
      rcases List.mem_cons.mp hp with h | h
      · subst h
        intro hmem'
        have h2 : rs ∈ w2.outgoing_swapcoins := hsub.subset hmem'
        rw [hw2out] at h2
        exact (hnd.mem_erase_iff.mp h2).1 rfl
      · exact hnonmem hnd2 p h
    · subst hevs
      intro e he
      rcases List.mem_cons.mp he with h | h
      · exact ⟨rs, h⟩
      · exact hshape e h

/-- A successful `recoverLoop` reaches the finalize branch: the flags are
set, the incoming swapcoins are untouched, and (under distinct wallet keys)
every outgoing redeemscript of the trigger is removed. -/
theorem recoverLoop_ok_spec (nodes : Nat → NodeView)
    (outgoings : List OutgoingEntry) :
    ∀ (fuel round : Nat) (broadcasted : List Nat) (w w' : Wallet)
      (evs : List REvent),
      recoverLoop nodes outgoings round fuel broadcasted w =
        Except.ok (w', evs) →
      w'.synced = true ∧ w'.saved = true ∧
      w'.incoming_swapcoins = w.incoming_swapcoins ∧
      (w.outgoing_swapcoins.Nodup →
        ∀ e ∈ outgoings, e.1.1 ∉ w'.outgoing_swapcoins) := by
  intro fuel
  induction fuel with
  | zero =>
    intro round broadcasted w w' evs hok
    rw [recoverLoop] at hok
    exact absurd hok (by simp)
  | succ fuel ih =>
    intro round broadcasted w w' evs hok
    rw [recoverLoop] at hok
    split at hok
    case isTrue =>
      cases hrem : removeOutgoings w outgoings with
      | error e => rw [hrem] at hok; exact absurd hok (by simp)
      | ok res =>
        rw [hrem] at hok
        simp only [] at hok
        obtain ⟨w2, evs2⟩ := res
        simp only [Except.ok.injEq, Prod.mk.injEq] at hok
        obtain ⟨hw, _⟩ := hok
        obtain ⟨_, _, _, _, hnonmem, _⟩ :=
          removeOutgoings_ok_spec outgoings w w2 evs2 hrem
        subst hw
        refine ⟨rfl, rfl, ?_, ?_⟩
        · exact (removeOutgoings_ok_spec outgoings w w2 evs2 hrem).1
        · intro hnd e he
          exact hnonmem hnd e he
    case isFalse =>
      cases hrec : recoverLoop nodes outgoings (round + 1) fuel
          (maturityPass (nodes round) outgoings broadcasted).1 w with
      | error e => rw [hrec] at hok; exact absurd hok (by simp)
      | ok res =>
        rw [hrec] at hok
        simp only [] at hok
        obtain ⟨w3, evs3⟩ := res
        simp only [Except.ok.injEq, Prod.mk.injEq] at hok
        obtain ⟨hw, _⟩ := hok
        subst hw
        exact ih (round + 1)
          (maturityPass (nodes round) outgoings broadcasted).1 w w3 evs3 hrec

/-- C6: when `recover_from_swap` returns `Ok`, every incoming and outgoing
swapcoin named by the trigger has been removed from the wallet (given the
wallet's keyed storage, i.e. distinct redeemscripts per side), and the wallet
has been re-synced and persisted. -/
theorem recover_finalize_removes_all (node0 : NodeView)
    (nodes : Nat → NodeView) (outgoings : List OutgoingEntry)
    (incomings : List IncomingEntry) (w : Wallet) (fuel : Nat)
    (w' : Wallet) (tr : List REvent)
    (hndI : w.incoming_swapcoins.Nodup)
    (hndO : w.outgoing_swapcoins.Nodup)
    (hok : recover_from_swap node0 nodes outgoings incomings w fuel =
      Except.ok (w', tr)) :
    (∀ p ∈ incomings, p.1 ∉ w'.incoming_swapcoins) ∧
    (∀ e ∈ outgoings, e.1.1 ∉ w'.outgoing_swapcoins) ∧
    w'.synced = true ∧ w'.saved = true := by
  rw [recover_from_swap] at hok
  cases hin : processIncomings node0 w incomings with
  | error e => rw [hin] at hok; exact absurd hok (by simp)
  | ok res1 =>
    rw [hin] at hok
    simp only [] at hok
    obtain ⟨w1, evs1⟩ := res1
    cases hloop : recoverLoop nodes outgoings 0 fuel []
        { w1 with saved := true } with
    | error e => rw [hloop] at hok; exact absurd hok (by simp)
    | ok res3 =>
      rw [hloop] at hok
      simp only [] at hok
      obtain ⟨w3, evs3⟩ := res3
      simp only [Except.ok.injEq, Prod.mk.injEq] at hok
      obtain ⟨hw, _⟩ := hok
      subst hw
      obtain ⟨hout1, _, _, _, hnonmem1⟩ :=
        processIncomings_ok_spec node0 incomings w w1 evs1 hin
      obtain ⟨hsync, hsave, hinEq, hnonmem3⟩ :=
        recoverLoop_ok_spec nodes outgoings fuel 0 []
          { w1 with saved := true } w3 evs3 hloop
      refine ⟨?_, ?_, hsync, hsave⟩
      · intro p hp
        rw [hinEq]
        exact hnonmem1 hndI p hp
      · intro e he
        exact hnonmem3 (by rw [show ({ w1 with saved := true } : Wallet).outgoing_swapcoins = w1.outgoing_swapcoins from rfl, hout1]; exact hndO) e he

/-- Concrete node view for the recovery witnesses: nothing broadcast yet. -/
def nodeEmpty : NodeView := NodeView.mk []

/-- Concrete maturity-scan views: contract tx 20 confirmed 6 times. -/
def nodesR : Nat → NodeView := fun _ => NodeView.mk [(20, some 6)]

/-- Concrete wallet holding incoming swapcoin 1 and outgoing swapcoin 2. -/
def walletR : Wallet := Wallet.mk [1] [2] false false

/-- Concrete outgoing entries: redeemscript 2, contract tx 20, timelock 5,
timelock-spend tx 30. -/
def outgoingsR : List OutgoingEntry := [((2, 20), (5, 30))]

/-- Concrete incoming entries: redeemscript 1, contract tx 10. -/
def incomingsR : List IncomingEntry := [(1, 10)]

/-- The event trace of the concrete recovery run. -/
def traceR : List REvent :=
  [REvent.broadcastContract 10, REvent.removeIncoming 1, REvent.save,
   REvent.broadcastContract 20, REvent.broadcastTimelock 30,
   REvent.removeOutgoing 2, REvent.sync, REvent.save]

/-- Witness for C6: after the concrete recovery run both swapcoins are gone
and the wallet is synced and saved. -/
theorem recover_finalize_removes_all_witness :
    (1 : Nat) ∉ (Wallet.mk [] [] true true).incoming_swapcoins ∧
    (2 : Nat) ∉ (Wallet.mk [] [] true true).outgoing_swapcoins ∧
    (Wallet.mk [] [] true true).synced = true :=
  have h := recover_finalize_removes_all nodeEmpty nodesR outgoingsR
    incomingsR walletR 1 (Wallet.mk [] [] true true) traceR
    (by decide) (by decide) rfl
  ⟨h.1 (1, 10) (by decide), h.2.1 ((2, 20), (5, 30)) (by decide), h.2.2.1⟩

/-! ## Event-trace lemmas for the broadcast phases and the maturity loop -/

/-- Every event of the outgoing-broadcast phase names an outgoing contract
txid. -/
theorem broadcastOutgoings_events_shape (node : NodeView)
    (outs : List OutgoingEntry) :
    ∀ e ∈ broadcastOutgoings node outs, ∃ x ∈ outs,
      e = REvent.alreadyBroadcast x.1.2 ∨ e = REvent.broadcastContract x.1.2 := by
  intro e he
  simp only [broadcastOutgoings, List.mem_map] at he
  obtain ⟨x, hx, hex⟩ := he
  refine ⟨x, hx, ?_⟩
  by_cases hs : (node.get_raw_transaction_info x.1.2).isSome
  · rw [if_pos hs] at hex
    exact Or.inl hex.symm
  · rw [if_neg hs] at hex
    exact Or.inr hex.symm

/-- Every event of a maturity pass is a timelock-spend broadcast. -/
theorem maturityPass_events_shape (node : NodeView) :
    ∀ (outs : List OutgoingEntry) (b : List Nat),
      ∀ e ∈ (maturityPass node outs b).2,
        ∃ t, e = REvent.broadcastTimelock t := by
  intro outs
  induction outs with
  | nil =>
    intro b e he
    rw [maturityPass] at he
    exact absurd he (by simp)
  | cons hd rest ih =>
    intro b e he
    obtain ⟨⟨rs, contract⟩, tl, tlx⟩ := hd
    rw [maturityPass] at he
    split at he
    · exact ih b e he
    · split at he
      · split at he
        · rcases List.mem_cons.mp he with h | h
          · exact ⟨tlx, h⟩
          · exact ih (b ++ [tlx]) e h
        · exact ih b e he
      · exact ih b e he
      · exact ih b e he

/-- Every event of the maturity/finalize loop is a timelock-spend broadcast,
an outgoing-swapcoin removal, a sync or a save. -/
theorem recoverLoop_events_shape (nodes : Nat → NodeView)
    (outs : List OutgoingEntry) :
    ∀ (fuel round : Nat) (b : List Nat) (w w' : Wallet) (evs : List REvent),
      recoverLoop nodes outs round fuel b w = Except.ok (w', evs) →
      ∀ e ∈ evs, (∃ t, e = REvent.broadcastTimelock t) ∨
        (∃ rs, e = REvent.removeOutgoing rs) ∨
        e = REvent.sync ∨ e = REvent.save := by
  intro fuel
  induction fuel with
  | zero =>
    intro round b w w' evs hok
    rw [recoverLoop] at hok
    exact absurd hok (by simp)
  | succ fuel ih =>
    intro round b w w' evs hok
    rw [recoverLoop] at hok
    split at hok
    case isTrue =>
      cases hrem : removeOutgoings w outs with
      | error e => rw [hrem] at hok; exact absurd hok (by simp)
      | ok res =>
        rw [hrem] at hok
        simp only [] at hok
        obtain ⟨w2, evs2⟩ := res
        simp only [Except.ok.injEq, Prod.mk.injEq] at hok
        obtain ⟨_, hevs⟩ := hok
        subst hevs
        intro e he
        rcases List.mem_append.mp he with h | h
        · rcases List.mem_append.mp h with h2 | h2
          · obtain ⟨t, ht⟩ := maturityPass_events_shape (nodes round) outs b e h2
            exact Or.inl ⟨t, ht⟩
          · obtain ⟨rs, hrs⟩ :=
              (removeOutgoings_ok_spec outs w w2 evs2 hrem).2.2.2.2.2 e h2
            exact Or.inr (Or.inl ⟨rs, hrs⟩)
        · rcases List.mem_cons.mp h with h2 | h2
          · exact Or.inr (Or.inr (Or.inl h2))
          · rcases List.mem_cons.mp h2 with h3 | h3
            · exact Or.inr (Or.inr (Or.inr h3))
            · exact absurd h3 (by simp)
    case isFalse =>
      cases hrec : recoverLoop nodes outs (round + 1) fuel
          (maturityPass (nodes round) outs b).1 w with
      | error e => rw [hrec] at hok; exact absurd hok (by simp)
      | ok res =>
        rw [hrec] at hok
        simp only [] at hok
        obtain ⟨w3, evs3⟩ := res
        simp only [Except.ok.injEq, Prod.mk.injEq] at hok
        obtain ⟨_, hevs⟩ := hok
        subst hevs
        intro e he
        rcases List.mem_append.mp he with h | h
        · obtain ⟨t, ht⟩ := maturityPass_events_shape (nodes round) outs b e h
          exact Or.inl ⟨t, ht⟩
        · exact ih (round + 1) (maturityPass (nodes round) outs b).1
            w w3 evs3 hrec e h

/-- Per-entry trace facts of the incomings phase: with distinct
redeemscripts and distinct contract txids, each entry's swapcoin is removed
exactly once, and an entry whose contract tx the node already reports is
logged as already broadcast and never broadcast. -/
theorem processIncomings_trace (node : NodeView) :
    ∀ (l : List IncomingEntry) (w w' : Wallet) (evs : List REvent),
      processIncomings node w l = Except.ok (w', evs) →
      (l.map Prod.fst).Nodup → (l.map Prod.snd).Nodup →
      ∀ p ∈ l,
        evs.countP (fun e => e = REvent.removeIncoming p.1) = 1 ∧
        ((node.get_raw_transaction_info p.2).isSome →
          REvent.alreadyBroadcast p.2 ∈ evs ∧
          REvent.broadcastContract p.2 ∉ evs) := by
  intro l
  induction l with
  | nil =>
    intro w w' evs hok _ _ p hp
    exact absurd hp (by simp)
  | cons hd rest ih =>
    intro w w' evs hok hndF hndS p hp
    obtain ⟨rs, txid⟩ := hd
    obtain ⟨w2, evs2, _, hrec, hevs⟩ :=
      processIncomings_cons_ok node w rs txid rest w' evs hok
    have hndF2 : (rest.map Prod.fst).Nodup := (List.nodup_cons.mp hndF).2
    have hndS2 : (rest.map Prod.snd).Nodup := (List.nodup_cons.mp hndS).2
    have hrsNot : rs ∉ rest.map Prod.fst := (List.nodup_cons.mp hndF).1
    have htxNot : txid ∉ rest.map Prod.snd := (List.nodup_cons.mp hndS).1
    subst hevs
    rcases List.mem_cons.mp hp with h | h
    · subst h
      constructor
      · rw [List.countP_cons, List.countP_cons]
        have hzero : evs2.countP
            (fun e => decide (e = REvent.removeIncoming rs)) = 0 := by
          rw [List.countP_eq_zero]
          intro e he
          obtain ⟨q, hq, hshape⟩ :=
            processIncomings_events_shape node rest w2 w' evs2 hrec e he
          simp only [decide_eq_true_eq]
          intro hcontra
          rcases hshape with h1 | h1 | h1 <;> rw [hcontra] at h1
          · cases h1
          · cases h1
          · have : q.1 = rs := by cases h1; rfl
            exact hrsNot (this ▸ List.mem_map_of_mem Prod.fst hq)
        have hne : ¬ ((if (node.get_raw_transaction_info txid).isSome then
            REvent.alreadyBroadcast txid else REvent.broadcastContract txid) =
            REvent.removeIncoming rs) := by
          split <;> simp
        simp [hzero, hne]
      · intro hs
        constructor
        · rw [if_pos hs]
          exact List.mem_cons_self _ _
        · intro hmem
          rcases List.mem_cons.mp hmem with h1 | h1
          · rw [if_pos hs] at h1
            cases h1
          · rcases List.mem_cons.mp h1 with h2 | h2
            · cases h2
            · obtain ⟨q, hq, hshape⟩ :=
                processIncomings_events_shape node rest w2 w' evs2 hrec _ h2
              rcases hshape with h3 | h3 | h3
              · cases h3
              · have : q.2 = txid := by cases h3; rfl
                exact htxNot (this ▸ List.mem_map_of_mem Prod.snd hq)
              · cases h3
    · obtain ⟨hcount, hbro⟩ := ih w2 w' evs2 hrec hndF2 hndS2 p h
      have hp1 : p.1 ∈ rest.map Prod.fst := List.mem_map_of_mem Prod.fst h
      have hp2 : p.2 ∈ rest.map Prod.snd := List.mem_map_of_mem Prod.snd h
      have hrsne : rs ≠ p.1 := fun hc => hrsNot (hc ▸ hp1)
      have htxne : txid ≠ p.2 := fun hc => htxNot (hc ▸ hp2)
      constructor
      · rw [List.countP_cons, List.countP_cons]
        have hne1 : ¬ ((if (node.get_raw_transaction_info txid).isSome then
            REvent.alreadyBroadcast txid else REvent.broadcastContract txid) =
            REvent.removeIncoming p.1) := by
          split <;> simp
        have hne2 : ¬ (REvent.removeIncoming rs = REvent.removeIncoming p.1) := by
          simp [hrsne]
        simp [hcount, hne1, hne2]
      · intro hs
        obtain ⟨hmem2, hnot2⟩ := hbro hs
        constructor
        · exact List.mem_cons_of_mem _ (List.mem_cons_of_mem _ hmem2)
        · intro hmem
          rcases List.mem_cons.mp hmem with h1 | h1
          · revert h1
            split
            · intro h1; cases h1
            · intro h1
              have : txid = p.2 := by cases h1; rfl
              exact htxne this
          · rcases List.mem_cons.mp h1 with h2 | h2
            · cases h2
            · exact hnot2 h2

/-- C7: over a whole `recover_from_swap` run, each incoming entry's swapcoin
is removed exactly once, and an incoming contract tx that the node already
reports is logged as already broadcast and never rebroadcast (entries are
keyed distinctly and incoming contract txids do not collide with outgoing
contract txids). -/
theorem incoming_no_rebroadcast_once_removed (node0 : NodeView)
    (nodes : Nat → NodeView) (outgoings : List OutgoingEntry)
    (incomings : List IncomingEntry) (w : Wallet) (fuel : Nat)
    (w' : Wallet) (tr : List REvent)
    (hok : recover_from_swap node0 nodes outgoings incomings w fuel =
      Except.ok (w', tr))
    (hndF : (incomings.map Prod.fst).Nodup)
    (hndS : (incomings.map Prod.snd).Nodup)
    (hdisj : ∀ p ∈ incomings, p.2 ∉ outgoings.map (fun e => e.1.2)) :
    ∀ p ∈ incomings,
      tr.countP (fun e => e = REvent.removeIncoming p.1) = 1 ∧
      ((node0.get_raw_transaction_info p.2).isSome →
        REvent.alreadyBroadcast p.2 ∈ tr ∧
        REvent.broadcastContract p.2 ∉ tr) := by
  rw [recover_from_swap] at hok
  cases hin : processIncomings node0 w incomings with
  | error e => rw [hin] at hok; exact absurd hok (by simp)
  | ok res1 =>
    rw [hin] at hok
    simp only [] at hok
    obtain ⟨w1, evs1⟩ := res1
    cases hloop : recoverLoop nodes outgoings 0 fuel []
        { w1 with saved := true } with
    | error e => rw [hloop] at hok; exact absurd hok (by simp)
    | ok res3 =>
      rw [hloop] at hok
      simp only [] at hok
      obtain ⟨w3, evs3⟩ := res3
      simp only [Except.ok.injEq, Prod.mk.injEq] at hok
      obtain ⟨_, hevs⟩ := hok
      subst hevs
      intro p hp
      obtain ⟨hcount1, hbro1⟩ :=
        processIncomings_trace node0 incomings w w1 evs1 hin hndF hndS p hp
      have hcountOut : (broadcastOutgoings node0 outgoings).countP
          (fun e => e = REvent.removeIncoming p.1) = 0 := by
        rw [List.countP_eq_zero]
        intro e he
        obtain ⟨x, _, hshape⟩ :=
          broadcastOutgoings_events_shape node0 outgoings e he
        simp only [decide_eq_true_eq]
        intro hcontra
        rcases hshape with h1 | h1 <;> rw [hcontra] at h1 <;> cases h1
      have hcountLoop : evs3.countP
          (fun e => e = REvent.removeIncoming p.1) = 0 := by
        rw [List.countP_eq_zero]
        intro e he
        obtain h1 | h1 | h1 | h1 := recoverLoop_events_shape nodes outgoings
          fuel 0 [] { w1 with saved := true } w3 evs3 hloop e he
        · obtain ⟨t, ht⟩ := h1
          simp [ht]
        · obtain ⟨rs, hrs⟩ := h1
          simp [hrs]
        · simp [h1]
        · simp [h1]
      constructor
      · rw [List.countP_append, List.countP_append, List.countP_append]
        simp [hcount1, hcountOut, hcountLoop]
      · intro hs
        obtain ⟨hmem1, hnot1⟩ := hbro1 hs
        constructor
        · exact List.mem_append_left _ (List.mem_append_left _
            (List.mem_append_left _ hmem1))
        · intro hmem
          rcases List.mem_append.mp hmem with h1 | h1
          · rcases List.mem_append.mp h1 with h2 | h2
            · rcases List.mem_append.mp h2 with h3 | h3
              · exact hnot1 h3
              · rcases List.mem_cons.mp h3 with h4 | h4
                · cases h4
                · exact absurd h4 (by simp)
            · obtain ⟨x, hx, hshape⟩ :=
                broadcastOutgoings_events_shape node0 outgoings _ h2
              rcases hshape with h3 | h3
              · cases h3
              · have hx2 : p.2 = x.1.2 := by simpa using h3
                refine hdisj p hp ?_
                rw [hx2]
                exact List.mem_map_of_mem (fun e => e.1.2) hx
          · obtain h2 | h2 | h2 | h2 := recoverLoop_events_shape nodes
              outgoings fuel 0 [] { w1 with saved := true } w3 evs3 hloop _ h1
            · obtain ⟨t, ht⟩ := h2
              cases ht
            · obtain ⟨rs, hrs⟩ := h2
              cases hrs
            · cases h2
            · cases h2

/-- Concrete node view that already reports the incoming contract tx 10. -/
def node0Known : NodeView := NodeView.mk [(10, Option.none)]

/-- Trace of the concrete recovery run whose incoming contract tx is already
known to the node. -/
def traceR2 : List REvent :=
  [REvent.alreadyBroadcast 10, REvent.removeIncoming 1, REvent.save,
   REvent.broadcastContract 20, REvent.broadcastTimelock 30,
   REvent.removeOutgoing 2, REvent.sync, REvent.save]

/-- Witness for C7: in the concrete run the already-known incoming tx is not
rebroadcast and its swapcoin is removed exactly once. -/
theorem incoming_no_rebroadcast_once_removed_witness :
    traceR2.countP (fun e => e = REvent.removeIncoming 1) = 1 ∧
    REvent.alreadyBroadcast 10 ∈ traceR2 ∧
    REvent.broadcastContract 10 ∉ traceR2 :=
  have h := incoming_no_rebroadcast_once_removed node0Known nodesR outgoingsR
    incomingsR walletR 1 (Wallet.mk [] [] true true) traceR2 rfl
    (by decide) (by decide) (by decide) (1, 10) (by decide)
  ⟨h.1, h.2 (by decide)⟩

/-- Counting invariant of one maturity pass: a timelock-spend txid is
broadcast in the pass exactly when it enters the `timelock_boardcasted` list
during the pass. -/
theorem maturityPass_count (node : NodeView) :
    ∀ (outs : List OutgoingEntry) (b : List Nat) (t : Nat),
      (maturityPass node outs b).2.countP
          (fun e => e = REvent.broadcastTimelock t) +
        (if t ∈ b then 1 else 0) =
      (if t ∈ (maturityPass node outs b).1 then 1 else 0) := by
  intro outs
  induction outs with
  | nil =>
    intro b t
    rw [maturityPass]
    simp
  | cons hd rest ih =>
    intro b t
    obtain ⟨⟨rs, contract⟩, tl, tlx⟩ := hd
    rw [maturityPass]
    split
    case isTrue h => exact ih b t
    case isFalse h =>
      cases hinfo : node.get_raw_transaction_info contract with
      | none => exact ih b t
      | some oc =>
        cases oc with
        | none => exact ih b t
        | some conf =>
          simp only []
          split
          case isTrue hlt =>
            by_cases ht : t = tlx
            · subst ht
              have hhead : List.countP
                  (fun e => decide (e = REvent.broadcastTimelock t))
                  (REvent.broadcastTimelock t ::
                    (maturityPass node rest (b ++ [t])).2) =
                  List.countP
                    (fun e => decide (e = REvent.broadcastTimelock t))
                    (maturityPass node rest (b ++ [t])).2 + 1 := by
                simp [List.countP_cons]
              have hIH := ih (b ++ [t]) t
              have hmem2 : t ∈ b ++ [t] := by simp
              rw [if_pos hmem2] at hIH
              rw [hhead, if_neg h, Nat.add_zero]
              exact hIH
            · have hhead : List.countP
                  (fun e => decide (e = REvent.broadcastTimelock t))
                  (REvent.broadcastTimelock tlx ::
                    (maturityPass node rest (b ++ [tlx])).2) =
                  List.countP
                    (fun e => decide (e = REvent.broadcastTimelock t))
                    (maturityPass node rest (b ++ [tlx])).2 := by
                simp [List.countP_cons, Ne.symm ht]
              have hIH := ih (b ++ [tlx]) t
              have hmemiff : (t ∈ b ++ [tlx]) ↔ (t ∈ b) := by simp [ht]
              simp only [hmemiff] at hIH
              rw [hhead]
              exact hIH
          case isFalse => exact ih b t

/-- A txid that is not among the outgoing timelock-spend txids is never
broadcast by a maturity pass. -/
theorem maturityPass_not_mem (node : NodeView) :
    ∀ (outs : List OutgoingEntry) (b : List Nat) (t : Nat),
      t ∉ outs.map (fun x => x.2.2) →
      REvent.broadcastTimelock t ∉ (maturityPass node outs b).2 := by
  intro outs
  induction outs with
  | nil =>
    intro b t _
    rw [maturityPass]
    simp
  | cons hd rest ih =>
    intro b t hnot
    obtain ⟨⟨rs, contract⟩, tl, tlx⟩ := hd
    have hne : t ≠ tlx := fun hc => hnot (by simp [hc])
    have hnot2 : t ∉ rest.map (fun x => x.2.2) := fun hc =>
      hnot (List.mem_cons_of_mem _ hc)
    rw [maturityPass]
    split
    · exact ih b t hnot2
    · cases hinfo : node.get_raw_transaction_info contract with
      | none => exact ih b t hnot2
      | some oc =>
        cases oc with
        | none => exact ih b t hnot2
        | some conf =>
          simp only []
          split
          · intro hmem
            rcases List.mem_cons.mp hmem with h1 | h1
            · exact hne (by simpa using h1)
            · exact ih (b ++ [tlx]) t hnot2 h1
          · exact ih b t hnot2

/-- Characterization of one maturity pass: a not-yet-swept outgoing entry's
timelock-spend is broadcast in the pass exactly when the node reports its
contract tx with strictly more than `relative_timelock` confirmations. -/
theorem maturityPass_broadcast_iff (node : NodeView) :
    ∀ (outs : List OutgoingEntry) (b : List Nat) (e : OutgoingEntry),
      e ∈ outs → (outs.map (fun x => x.2.2)).Nodup → e.2.2 ∉ b →
      (REvent.broadcastTimelock e.2.2 ∈ (maturityPass node outs b).2 ↔
        ∃ c, node.get_raw_transaction_info e.1.2 = some (some c) ∧
          e.2.1 < c) := by
  intro outs
  induction outs with
  | nil =>
    intro b e hmem
    exact absurd hmem (by simp)
  | cons hd rest ih =>
    intro b e hmem hnd hnb
    obtain ⟨⟨rs, contract⟩, tl, tlx⟩ := hd
    have hndtl : (rest.map (fun x => x.2.2)).Nodup :=
      (List.nodup_cons.mp hnd).2
    have hhd : tlx ∉ rest.map (fun x => x.2.2) := (List.nodup_cons.mp hnd).1
    rcases List.mem_cons.mp hmem with hcase | hcase
    · subst hcase
      rw [maturityPass]
      rw [if_neg hnb]
      cases hinfo : node.get_raw_transaction_info contract with
      | none =>
        constructor
        · intro hmemev
          exact absurd hmemev (maturityPass_not_mem node rest b tlx hhd)
        · rintro ⟨c, hc, _⟩
          cases hc
      | some oc =>
        cases oc with
        | none =>
          simp only []
          constructor
          · intro hmemev
            exact absurd hmemev (maturityPass_not_mem node rest b tlx hhd)
          · rintro ⟨c, hc, _⟩
            simp at hc
        | some conf =>
          simp only []
          split
          case isTrue hlt =>
            constructor
            · intro _
              exact ⟨conf, rfl, hlt⟩
            · intro _
              exact List.mem_cons_self _ _
          case isFalse hlt =>
            constructor
            · intro hmemev
              exact absurd hmemev
                (maturityPass_not_mem node rest b tlx hhd)
            · rintro ⟨c, hc, hcl⟩
              simp only [Option.some.injEq] at hc
              exact absurd (hc.symm ▸ hcl) hlt
    · have he2 : e.2.2 ∈ rest.map (fun x => x.2.2) :=
        List.mem_map_of_mem (fun x => x.2.2) hcase
      have hetlx : e.2.2 ≠ tlx := fun hc => hhd (hc ▸ he2)
      rw [maturityPass]
      split
      · exact ih b e hcase hndtl hnb
      · cases hinfo : node.get_raw_transaction_info contract with
        | none => exact ih b e hcase hndtl hnb
        | some oc =>
          cases oc with
          | none => exact ih b e hcase hndtl hnb
          | some conf =>
            simp only []
            split
            case isTrue hlt =>
              have hnb2 : e.2.2 ∉ b ++ [tlx] := by
                simp [List.mem_append, hnb, hetlx]
              rw [List.mem_cons]
              constructor
              · intro hmemev
                rcases hmemev with h1 | h1
                · exact absurd (by simpa using h1) hetlx
                · exact (ih (b ++ [tlx]) e hcase hndtl hnb2).mp h1
              · intro hex
                exact Or.inr ((ih (b ++ [tlx]) e hcase hndtl hnb2).mpr hex)
            case isFalse => exact ih b e hcase hndtl hnb

/-- Across a whole successful maturity/finalize loop, a timelock-spend txid
not yet in `timelock_boardcasted` is broadcast at most once, and one already
in it is never broadcast again. -/
theorem recoverLoop_count (nodes : Nat → NodeView)
    (outs : List OutgoingEntry) :
    ∀ (fuel round : Nat) (b : List Nat) (w w' : Wallet) (evs : List REvent),
      recoverLoop nodes outs round fuel b w = Except.ok (w', evs) →
      ∀ t, evs.countP (fun e => e = REvent.broadcastTimelock t) +
        (if t ∈ b then 1 else 0) ≤ 1 := by
  intro fuel
  induction fuel with
  | zero =>
    intro round b w w' evs hok
    rw [recoverLoop] at hok
    exact absurd hok (by simp)
  | succ fuel ih =>
    intro round b w w' evs hok t
    rw [recoverLoop] at hok
    split at hok
    case isTrue =>
      cases hrem : removeOutgoings w outs with
      | error e => rw [hrem] at hok; exact absurd hok (by simp)
      | ok res =>
        rw [hrem] at hok
        simp only [] at hok
        obtain ⟨w2, evs2⟩ := res
        simp only [Except.ok.injEq, Prod.mk.injEq] at hok
        obtain ⟨_, hevs⟩ := hok
        subst hevs
        have hc2 : evs2.countP
            (fun e => e = REvent.broadcastTimelock t) = 0 := by
          rw [List.countP_eq_zero]
          intro e he
          obtain ⟨rs, hrs⟩ :=
            (removeOutgoings_ok_spec outs w w2 evs2 hrem).2.2.2.2.2 e he
          simp [hrs]
        have hcnt := maturityPass_count (nodes round) outs b t
        rw [List.countP_append, List.countP_append, hc2]
        have htail : List.countP
            (fun e => e = REvent.broadcastTimelock t)
            [REvent.sync, REvent.save] = 0 := by simp
        rw [htail]
        by_cases hb : t ∈ b
        · rw [if_pos hb] at hcnt ⊢
          by_cases hp : t ∈ (maturityPass (nodes round) outs b).1
          · rw [if_pos hp] at hcnt
            omega
          · rw [if_neg hp] at hcnt
            omega
        · rw [if_neg hb] at hcnt ⊢
          by_cases hp : t ∈ (maturityPass (nodes round) outs b).1
          · rw [if_pos hp] at hcnt
            omega
          · rw [if_neg hp] at hcnt
            omega
    case isFalse =>
      cases hrec : recoverLoop nodes outs (round + 1) fuel
          (maturityPass (nodes round) outs b).1 w with
      | error e => rw [hrec] at hok; exact absurd hok (by simp)
      | ok res =>
        rw [hrec] at hok
        simp only [] at hok
        obtain ⟨w3, evs3⟩ := res
        simp only [Except.ok.injEq, Prod.mk.injEq] at hok
        obtain ⟨_, hevs⟩ := hok
        subst hevs
        have hIH := ih (round + 1) (maturityPass (nodes round) outs b).1
          w w3 evs3 hrec t
        have hcnt := maturityPass_count (nodes round) outs b t
        rw [List.countP_append]
        by_cases hb : t ∈ b
        · rw [if_pos hb] at hcnt ⊢
          by_cases hp : t ∈ (maturityPass (nodes round) outs b).1
          · rw [if_pos hp] at hcnt hIH
            omega
          · rw [if_neg hp] at hcnt hIH
            omega
        · rw [if_neg hb] at hcnt ⊢
          by_cases hp : t ∈ (maturityPass (nodes round) outs b).1
          · rw [if_pos hp] at hcnt hIH
            omega
          · rw [if_neg hp] at hcnt hIH
            omega

/-- C1 (amended): over a successful `recover_from_swap` run each outgoing
timelock-spend is broadcast at most once per trigger, and in any maturity
pass a not-yet-swept outgoing entry's timelock-spend is broadcast exactly
when the node reports the contract tx with strictly more than
`relative_timelock` confirmations. -/
theorem timelock_spend_broadcast_strict (node0 : NodeView)
    (nodes : Nat → NodeView) (outgoings : List OutgoingEntry)
    (incomings : List IncomingEntry) (w : Wallet) (fuel : Nat)
    (w' : Wallet) (tr : List REvent)
    (hok : recover_from_swap node0 nodes outgoings incomings w fuel =
      Except.ok (w', tr)) :
    (∀ t, tr.countP (fun e => e = REvent.broadcastTimelock t) ≤ 1) ∧
    (∀ (node : NodeView) (b : List Nat) (e : OutgoingEntry),
      e ∈ outgoings → (outgoings.map (fun x => x.2.2)).Nodup →
      e.2.2 ∉ b →
      (REvent.broadcastTimelock e.2.2 ∈ (maturityPass node outgoings b).2 ↔
        ∃ c, node.get_raw_transaction_info e.1.2 = some (some c) ∧
          e.2.1 < c)) := by
  constructor
  · intro t
    rw [recover_from_swap] at hok
    cases hin : processIncomings node0 w incomings with
    | error e => rw [hin] at hok; exact absurd hok (by simp)
    | ok res1 =>
      rw [hin] at hok
      simp only [] at hok
      obtain ⟨w1, evs1⟩ := res1
      cases hloop : recoverLoop nodes outgoings 0 fuel []
          { w1 with saved := true } with
      | error e => rw [hloop] at hok; exact absurd hok (by simp)
      | ok res3 =>
        rw [hloop] at hok
        simp only [] at hok
        obtain ⟨w3, evs3⟩ := res3
        simp only [Except.ok.injEq, Prod.mk.injEq] at hok
        obtain ⟨_, hevs⟩ := hok
        subst hevs
        have hc1 : evs1.countP
            (fun e => e = REvent.broadcastTimelock t) = 0 := by
          rw [List.countP_eq_zero]
          intro e he
          obtain ⟨q, _, hshape⟩ :=
            processIncomings_events_shape node0 incomings w w1 evs1 hin e he
          rcases hshape with h1 | h1 | h1 <;> simp [h1]
        have hcOut : (broadcastOutgoings node0 outgoings).countP
            (fun e => e = REvent.broadcastTimelock t) = 0 := by
          rw [List.countP_eq_zero]
          intro e he
          obtain ⟨x, _, hshape⟩ :=
            broadcastOutgoings_events_shape node0 outgoings e he
          rcases hshape with h1 | h1 <;> simp [h1]
        have hc3 := recoverLoop_count nodes outgoings fuel 0 []
          { w1 with saved := true } w3 evs3 hloop t
        rw [if_neg (by simp : ¬ t ∈ ([] : List Nat))] at hc3
        rw [List.countP_append, List.countP_append, List.countP_append,
          hc1, hcOut]
        have hsave : List.countP
            (fun e => e = REvent.broadcastTimelock t) [REvent.save] = 0 := by
          simp
        rw [hsave]
        omega
  · intro node b e hmem hnd hnb
    exact maturityPass_broadcast_iff node outgoings b e hmem hnd hnb

/-- Counterexample to C1 as stated: the node reports the contract tx with
exactly `relative_timelock` (= 5) confirmations — "at least
relative_timelock" holds — yet the maturity pass broadcasts nothing, because
the code requires strictly more than `relative_timelock` confirmations. -/
theorem timelock_at_exact_maturity_not_broadcast :
    NodeView.get_raw_transaction_info (NodeView.mk [(20, some 5)]) 20 =
      some (some 5) ∧
    (5 : Nat) ≤ 5 ∧
    (maturityPass (NodeView.mk [(20, some 5)]) [((2, 20), (5, 30))] []).2 =
      [] := by
  exact ⟨rfl, le_refl 5, rfl⟩

/-- Witness for C1: in the concrete run the timelock-spend 30 is broadcast
at most once, and with 6 > 5 confirmations the pass does broadcast it. -/
theorem timelock_spend_broadcast_strict_witness :
    traceR.countP (fun e => e = REvent.broadcastTimelock 30) ≤ 1 ∧
    REvent.broadcastTimelock 30 ∈
      (maturityPass (NodeView.mk [(20, some 6)]) outgoingsR []).2 :=
  have h := timelock_spend_broadcast_strict nodeEmpty nodesR outgoingsR
    incomingsR walletR 1 (Wallet.mk [] [] true true) traceR rfl
  ⟨h.1 30,
    (h.2 (NodeView.mk [(20, some 6)]) [] ((2, 20), (5, 30)) (by decide)
      (by decide) (by decide)).mpr ⟨6, rfl, by decide⟩⟩

/-! ## check_for_idle_states (src/maker/api.rs lines 539-618)

One pass of the idle-detector loop body (the work done between two heartbeat
sleeps) is embedded.  The connection-state store — a `HashMap<IpAddr,
(ConnectionState, Instant)>` — is a list of `(ip, state, last_seen)` with
distinct ips; instants are seconds as naturals, and
`current_time.saturating_duration_since(last_seen)` is truncated natural
subtraction.  Swapcoins are spec-modelled records (the SwapCoin types live in
the wallet module, not under src/): per spec §3, an outgoing swapcoin exposes
its relative timelock and a timelock-spend transaction, and either side's
fully signed contract transaction exists only once the counterparty's
signature is known — `get_fully_signed_contract_tx` errors otherwise. -/

/-- Modelled from the spec: `IncomingSwapCoin` (wallet module, not under
src/).  `fully_signed_contract_tx` is the contract txid when the
counterparty's signature is known. -/
structure IncomingSwapCoin where
  multisig_redeemscript : Nat
  fully_signed_contract_tx : Option Nat
deriving DecidableEq, Repr

/-- Modelled from the spec: `OutgoingSwapCoin` (wallet module, not under
src/).  `timelock` is `get_timelock()` (reads the relative locktime from the
contract script, which can fail), `fully_signed_contract_tx` as for incoming
coins, `timelock_spend_tx` the transaction built by `create_timelock_spend`
(which can fail). -/
structure OutgoingSwapCoin where
  multisig_redeemscript : Nat
  timelock : Option Nat
  fully_signed_contract_tx : Option Nat
  timelock_spend_tx : Option Nat
deriving DecidableEq, Repr

/-- `ExpectedMessage` (src/maker/api.rs lines 71-81). -/
inductive ExpectedMessage where
  | TakerHello
  | NewlyConnectedTaker
  | ReqContractSigsForSender
  | ProofOfFunding
  | ProofOfFundingORContractSigsForRecvrAndSender
  | ReqContractSigsForRecvr
  | HashPreimage
  | PrivateKeyHandover
deriving DecidableEq, Repr

/-- `ConnectionState` (src/maker/api.rs lines 85-90); pending funding txes by
txid. -/
structure ConnectionState where
  allowed_message : ExpectedMessage
  incoming_swapcoins : List IncomingSwapCoin
  outgoing_swapcoins : List OutgoingSwapCoin
  pending_funding_txes : List Nat
deriving DecidableEq, Repr

/-- `ConnectionState::default()`. -/
def ConnectionState.initial : ConnectionState :=
  ConnectionState.mk ExpectedMessage.TakerHello [] [] []

/-- The connection-state store: `(ip, state, last_seen)` entries. -/
abbrev Store : Type := List (Nat × ConnectionState × Nat)

/-- The recovery job handed to the spawned thread: the ip it came from and
the `outgoings`/`incomings` payload of `recover_from_swap`. -/
inductive IdleEvent where
  | spawnRecovery (ip : Nat) (outgoings : List OutgoingEntry)
      (incomings : List IncomingEntry)
deriving DecidableEq, Repr

/-- The payload-extraction loop of `check_for_idle_states` (lines 570-586):
zip outgoing with incoming swapcoins; every accessor is used with `?`, so the
first failing accessor aborts the whole watchdog function. -/
def extractPayload :
    List (OutgoingSwapCoin × IncomingSwapCoin) →
    Except String (List OutgoingEntry × List IncomingEntry)
  | [] => Except.ok ([], [])
  | (og, ic) :: rest =>
    match og.timelock with
    | none => Except.error "timelock read failed"
    | some contract_timelock =>
      match og.fully_signed_contract_tx with
      | none => Except.error "contract signature not known"
      | some contract =>
        match og.timelock_spend_tx with
        | none => Except.error "timelock spend build failed"
        | some time_lock_spend =>
          match ic.fully_signed_contract_tx with
          | none => Except.error "contract signature not known"
          | some incoming_contract =>
            match extractPayload rest with
            | Except.error e => Except.error e
            | Except.ok (outs, ins) =>
              Except.ok
                (((og.multisig_redeemscript, contract),
                  (contract_timelock, time_lock_spend)) :: outs,
                 (ic.multisig_redeemscript, incoming_contract) :: ins)

/-- The `for` loop over the store (lines 550-606): scan entries in iteration
order; at the first entry idle longer than 60 seconds, extract the payload
(`?` failures abort), record the ip as bad, spawn recovery, reset the state
to default and `break`. -/
def idlePassScan (now : Nat) :
    Store → Except String (Store × List Nat × List IdleEvent)
  | [] => Except.ok ([], [], [])
  | (ip, st, last_seen) :: rest =>
    if 60 < now - last_seen then
      match extractPayload
          (st.outgoing_swapcoins.zip st.incoming_swapcoins) with
      | Except.error e => Except.error e
      | Except.ok (outs, ins) =>
        Except.ok ((ip, ConnectionState.initial, last_seen) :: rest, [ip],
          [IdleEvent.spawnRecovery ip outs ins])
    else
      match idlePassScan now rest with
      | Except.error e => Except.error e
      | Except.ok (store2, bad, evs) =>
        Except.ok ((ip, st, last_seen) :: store2, bad, evs)

/-- One full pass of `check_for_idle_states` between sleeps: the scan
followed by removal of the recorded bad ips from the store (lines 609-611).
Returns the store after the pass and the recovery jobs spawned. -/
def check_idle_once (now : Nat) (store : Store) :
    Except String (Store × List IdleEvent) :=
  match idlePassScan now store with
  | Except.error e => Except.error e
  | Except.ok (store2, bad, evs) =>
    Except.ok (store2.filter (fun ent => decide (ent.1 ∉ bad)), evs)

/-- A zip list containing a coin whose counterparty signature is missing
makes the payload extraction fail (the `?` in the Rust loop). -/
theorem extractPayload_missing_sig :
    ∀ (l : List (OutgoingSwapCoin × IncomingSwapCoin)),
      (∃ p ∈ l, p.1.fully_signed_contract_tx = none) →
      isErr (extractPayload l) = true := by
  intro l
  induction l with
  | nil =>
    rintro ⟨p, hp, _⟩
    exact absurd hp (by simp)
  | cons hd rest ih =>
    rintro ⟨p, hp, hnone⟩
    obtain ⟨og, ic⟩ := hd
    rw [extractPayload]
    cases h1 : og.timelock with
    | none => rfl
    | some tl =>
      cases h2 : og.fully_signed_contract_tx with
      | none => rfl
      | some ctx =>
        cases h3 : og.timelock_spend_tx with
        | none => rfl
        | some tls =>
          cases h4 : ic.fully_signed_contract_tx with
          | none => rfl
          | some ictx =>
            rcases List.mem_cons.mp hp with h | h
            · rw [h] at hnone
              rw [hnone] at h2
              cases h2
            · cases hrec : extractPayload rest with
              | error e => rfl
              | ok res =>
                have hih := ih ⟨p, h, hnone⟩
                rw [hrec] at hih
                simp [isErr] at hih

/-- C2 (amended): when the first idle peer of a pass has a paired swapcoin
whose contract transaction is not fully signed, `check_for_idle_states`
propagates the error — the pass and the watchdog loop abort; the coin is not
skipped. -/
theorem idle_missing_signature_aborts
    (now ip last_seen : Nat) (st : ConnectionState) (rest : Store)
    (hidle : 60 < now - last_seen)
    (hbad : ∃ p ∈ st.outgoing_swapcoins.zip st.incoming_swapcoins,
      p.1.fully_signed_contract_tx = none) :
    isErr (check_idle_once now ((ip, st, last_seen) :: rest)) = true := by
  rw [check_idle_once, idlePassScan, if_pos hidle]
  have herr := extractPayload_missing_sig
    (st.outgoing_swapcoins.zip st.incoming_swapcoins) hbad
  cases hex : extractPayload
      (st.outgoing_swapcoins.zip st.incoming_swapcoins) with
  | error e => rfl
  | ok res =>
    rw [hex] at herr
    simp [isErr] at herr

/-- A connection state whose only outgoing swapcoin misses the counterparty
signature. -/
def stUnsigned : ConnectionState :=
  ConnectionState.mk ExpectedMessage.ReqContractSigsForRecvr
    [IncomingSwapCoin.mk 1 (some 11)]
    [OutgoingSwapCoin.mk 2 (some 5) none (some 31)]
    []

/-- Counterexample to C2 as stated: an idle peer (idle for 100 s) holds a
paired swapcoin without a fully signed contract tx, and the pass returns an
error — it aborts instead of skipping the coin and continuing. -/
theorem idle_unsigned_aborts_counterexample :
    60 < 100 - 0 ∧
    (OutgoingSwapCoin.mk 2 (some 5) none
      (some 31)).fully_signed_contract_tx = none ∧
    check_idle_once 100 [(7, stUnsigned, 0)] =
      Except.error "contract signature not known" :=
  ⟨by decide, rfl, rfl⟩

/-- Witness for C2 (amended): the concrete unsigned store makes the pass
error out. -/
theorem idle_missing_signature_aborts_witness :
    isErr (check_idle_once 100 [(7, stUnsigned, 0)]) = true :=
  idle_missing_signature_aborts 100 7 0 stUnsigned []
    (by decide)
    ⟨(OutgoingSwapCoin.mk 2 (some 5) none (some 31),
      IncomingSwapCoin.mk 1 (some 11)), by decide, rfl⟩

/-- The scan stops at the first idle entry: entries before it are kept as
they are, the idle entry is reset in place and recorded bad, everything
after it is untouched. -/
theorem idlePassScan_first_idle
    (now ip last_seen : Nat) (st : ConnectionState)
    (outs : List OutgoingEntry) (ins : List IncomingEntry)
    (hidle : 60 < now - last_seen)
    (hex : extractPayload (st.outgoing_swapcoins.zip st.incoming_swapcoins) =
      Except.ok (outs, ins)) :
    ∀ (pre post : Store),
      (∀ ent ∈ pre, ¬ 60 < now - ent.2.2) →
      idlePassScan now (pre ++ (ip, st, last_seen) :: post) =
        Except.ok (pre ++ (ip, ConnectionState.initial, last_seen) :: post,
          [ip], [IdleEvent.spawnRecovery ip outs ins]) := by
  intro pre
  induction pre with
  | nil =>
    intro post _
    rw [List.nil_append, idlePassScan, if_pos hidle, hex]
    rfl
  | cons ent pre ih =>
    intro post hpre
    obtain ⟨ip2, st2, last2⟩ := ent
    rw [List.cons_append, idlePassScan]
    rw [if_neg (hpre (ip2, st2, last2) (List.mem_cons_self _ _))]
    rw [ih post (fun e he => hpre e (List.mem_cons_of_mem _ he))]
    rfl

/-- C3 (amended): a single Idle Detector pass handles at most one idle peer
— the first one in iteration order (regardless of whether it holds
swapcoins): recovery is scheduled for it, its entry is removed, and every
other entry, idle or not, is left untouched for a later pass. -/
theorem idle_pass_handles_first_idle
    (now ip last_seen : Nat) (st : ConnectionState)
    (pre post : Store) (outs : List OutgoingEntry)
    (ins : List IncomingEntry)
    (hpre : ∀ ent ∈ pre, ¬ 60 < now - ent.2.2)
    (hidle : 60 < now - last_seen)
    (hex : extractPayload (st.outgoing_swapcoins.zip st.incoming_swapcoins) =
      Except.ok (outs, ins))
    (hip : ∀ ent ∈ pre ++ post, ent.1 ≠ ip) :
    check_idle_once now (pre ++ (ip, st, last_seen) :: post) =
      Except.ok (pre ++ post, [IdleEvent.spawnRecovery ip outs ins]) := by
  rw [check_idle_once,
    idlePassScan_first_idle now ip last_seen st outs ins hidle hex pre post
      hpre]
  have hkeep : ∀ ent ∈ pre ++ post,
      (decide (ent.1 ∉ ([ip] : List Nat))) = true := by
    intro ent hent
    simp only [decide_eq_true_eq, List.mem_singleton]
    exact hip ent hent
  simp only []
  rw [List.filter_append]
  rw [List.filter_cons_of_neg (by simp)]
  rw [List.filter_eq_self.mpr (fun a ha => hkeep a (List.mem_append_left _ ha)),
    List.filter_eq_self.mpr (fun a ha => hkeep a (List.mem_append_right _ ha))]

/-- Fully signed connection states for the idle-pass witnesses. -/
def stSigned1 : ConnectionState :=
  ConnectionState.mk ExpectedMessage.ReqContractSigsForRecvr
    [IncomingSwapCoin.mk 1 (some 11)]
    [OutgoingSwapCoin.mk 2 (some 5) (some 21) (some 31)]
    []

/-- A second fully signed connection state. -/
def stSigned2 : ConnectionState :=
  ConnectionState.mk ExpectedMessage.ReqContractSigsForRecvr
    [IncomingSwapCoin.mk 3 (some 12)]
    [OutgoingSwapCoin.mk 4 (some 5) (some 22) (some 32)]
    []

/-- Counterexample to C3 as stated: two peers are both idle (idle 100 s >
60 s) and both hold paired swapcoins, yet one pass schedules recovery only
for the first and leaves the second, still idle, in the store for a later
pass. -/
theorem idle_pass_leaves_second_idler_counterexample :
    60 < 100 - 0 ∧
    stSigned2.outgoing_swapcoins ≠ [] ∧
    check_idle_once 100 [(7, stSigned1, 0), (8, stSigned2, 0)] =
      Except.ok ([(8, stSigned2, 0)],
        [IdleEvent.spawnRecovery 7 [((2, 21), (5, 31))] [(1, 11)]]) :=
  ⟨by decide, by decide, rfl⟩

/-- Witness for C3 (amended): a concrete pass over a non-idle entry followed
by an idle one schedules exactly that idle peer and drops it. -/
theorem idle_pass_handles_first_idle_witness :
    check_idle_once 100 [(9, stSigned2, 50), (7, stSigned1, 0)] =
      Except.ok ([(9, stSigned2, 50)],
        [IdleEvent.spawnRecovery 7 [((2, 21), (5, 31))] [(1, 11)]]) :=
  idle_pass_handles_first_idle 100 7 0 stSigned1 [(9, stSigned2, 50)] []
    [((2, 21), (5, 31))] [(1, 11)]
    (by decide) (by decide) rfl (by decide)

/-- Any spawned recovery names an entry of the store whose idle time is
strictly over 60 seconds. -/
theorem idlePassScan_events (now : Nat) :
    ∀ (store : Store) (store2 : Store) (bad : List Nat)
      (evs : List IdleEvent),
      idlePassScan now store = Except.ok (store2, bad, evs) →
      ∀ (ipx : Nat) (o : List OutgoingEntry) (i : List IncomingEntry),
        IdleEvent.spawnRecovery ipx o i ∈ evs →
        ∃ ent ∈ store, ent.1 = ipx ∧ 60 < now - ent.2.2 := by
  intro store
  induction store with
  | nil =>
    intro store2 bad evs hok ipx o i hev
    rw [idlePassScan] at hok
    simp only [Except.ok.injEq, Prod.mk.injEq] at hok
    obtain ⟨_, _, hevs⟩ := hok
    subst hevs
    exact absurd hev (by simp)
  | cons ent rest ih =>
    intro store2 bad evs hok ipx o i hev
    obtain ⟨ip2, st2, last2⟩ := ent
    rw [idlePassScan] at hok
    split at hok
    case isTrue hidle =>
      cases hex : extractPayload
          (st2.outgoing_swapcoins.zip st2.incoming_swapcoins) with
      | error e => rw [hex] at hok; exact absurd hok (by simp)
      | ok res =>
        rw [hex] at hok
        simp only [] at hok
        obtain ⟨outs, ins⟩ := res
        simp only [Except.ok.injEq, Prod.mk.injEq] at hok
        obtain ⟨_, _, hevs⟩ := hok
        subst hevs
        rcases List.mem_cons.mp hev with h | h
        · have hipx : ip2 = ipx := by
            injection h with h1 _ _
            exact h1.symm
          exact ⟨(ip2, st2, last2), List.mem_cons_self _ _, hipx, hidle⟩
        · exact absurd h (by simp)
    case isFalse hnotidle =>
      cases hrec : idlePassScan now rest with
      | error e => rw [hrec] at hok; exact absurd hok (by simp)
      | ok res =>
        rw [hrec] at hok
        simp only [] at hok
        obtain ⟨storeR, badR, evsR⟩ := res
        simp only [Except.ok.injEq, Prod.mk.injEq] at hok
        obtain ⟨_, _, hevs⟩ := hok
        subst hevs
        obtain ⟨ent2, hent2, hfacts⟩ := ih storeR badR evsR hrec ipx o i hev
        exact ⟨ent2, List.mem_cons_of_mem _ hent2, hfacts⟩

/-- C9: recovery is triggered for an examined peer exactly when its idle
time is strictly greater than 60 seconds: a single-entry store triggers iff
idle > 60, and in any pass over any store every spawned recovery belongs to
an entry idle strictly longer than 60 seconds (so 60 seconds or less never
triggers). -/
theorem idle_trigger_iff_strictly_over_60
    (now ip last_seen : Nat) (st : ConnectionState)
    (outs : List OutgoingEntry) (ins : List IncomingEntry)
    (hex : extractPayload (st.outgoing_swapcoins.zip st.incoming_swapcoins) =
      Except.ok (outs, ins)) :
    (60 < now - last_seen →
      check_idle_once now [(ip, st, last_seen)] =
        Except.ok ([], [IdleEvent.spawnRecovery ip outs ins])) ∧
    (¬ 60 < now - last_seen →
      check_idle_once now [(ip, st, last_seen)] =
        Except.ok ([(ip, st, last_seen)], [])) ∧
    (∀ (store store2 : Store) (evs : List IdleEvent),
      check_idle_once now store = Except.ok (store2, evs) →
      ∀ (ipx : Nat) (o : List OutgoingEntry) (i : List IncomingEntry),
        IdleEvent.spawnRecovery ipx o i ∈ evs →
        ∃ ent ∈ store, ent.1 = ipx ∧ 60 < now - ent.2.2) := by
  refine ⟨?_, ?_, ?_⟩
  · intro hidle
    rw [check_idle_once, idlePassScan, if_pos hidle, hex]
    simp
  · intro hnot
    rw [check_idle_once, idlePassScan, if_neg hnot]
    rw [show idlePassScan now [] =
      Except.ok ([], [], []) from rfl]
    simp
  · intro store store2 evs hok ipx o i hev
    rw [check_idle_once] at hok
    cases hscan : idlePassScan now store with
    | error e => rw [hscan] at hok; exact absurd hok (by simp)
    | ok res =>
      rw [hscan] at hok
      simp only [] at hok
      obtain ⟨storeS, badS, evsS⟩ := res
      simp only [Except.ok.injEq, Prod.mk.injEq] at hok
      obtain ⟨_, hevs⟩ := hok
      subst hevs
      exact idlePassScan_events now store storeS badS evsS hscan ipx o i hev

/-- Witness for C9: idle 100 s triggers, idle 50 s does not. -/
theorem idle_trigger_iff_strictly_over_60_witness :
    check_idle_once 100 [(7, stSigned1, 0)] =
      Except.ok ([], [IdleEvent.spawnRecovery 7
        [((2, 21), (5, 31))] [(1, 11)]]) ∧
    check_idle_once 100 [(7, stSigned1, 50)] =
      Except.ok ([(7, stSigned1, 50)], []) :=
  ⟨(idle_trigger_iff_strictly_over_60 100 7 0 stSigned1
      [((2, 21), (5, 31))] [(1, 11)] rfl).1 (by decide),
   (idle_trigger_iff_strictly_over_60 100 7 50 stSigned1
      [((2, 21), (5, 31))] [(1, 11)] rfl).2.1 (by decide)⟩

/-! ## Concrete instances used by the witness theorems -/

/-- A concrete environment in which every helper primitive succeeds, the
contract locktime reads as 148, the funding output has 1 confirmation and the
hashvalue is 9. -/
def envA : MakerEnv where
  read_contract_locktime := fun _ => Except.ok 148
  find_funding_output_index := fun _ => Except.ok 0
  get_tx_out := fun _ _ => some (TxOutInfo.mk 1)
  check_reedemscript_is_multisig := fun _ => Except.ok ()
  tweakable_pubkey := 0
  check_multisig_has_pubkey := fun _ _ _ => Except.ok ()
  check_hashlock_has_pubkey := fun _ _ _ => Except.ok ()
  redeemscript_to_scriptpubkey := fun _ => Except.ok 5
  check_hashvalues_are_equal := fun _ => Except.ok 9

/-- A concrete funding entry: funding txid 3, multisig redeemscript 4,
contract redeemscript 6. -/
def fiA : FundingInfo := FundingInfo.mk 3 4 0 6 0

/-- A contract cache holding exactly the entry that `fiA` needs. -/
def cacheA : ContractCache := [(OutPoint.mk 3 0, 5)]

/-! ## Claim theorems about verify_proof_of_funding -/

/-- C4: for a funding entry whose contract-redeemscript relative locktime `L`
satisfies `L − next_locktime = MIN_CONTRACT_REACTION_TIME` (48),
`verify_proof_of_funding` accepts (given every other check succeeds), and when
the difference is one block less (47) it rejects with the locktime error. -/
theorem verify_pof_locktime_boundary
    (env : MakerEnv) (cache : ContractCache) (fi : FundingInfo)
    (nl L idx c spk h : Nat)
    (hread : env.read_contract_locktime fi.contract_redeemscript = Except.ok L)
    (hfind : env.find_funding_output_index fi = Except.ok idx)
    (htxo : env.get_tx_out fi.funding_txid idx = some (TxOutInfo.mk c))
    (hc : REQUIRED_CONFIRMS ≤ c)
    (hms : env.check_reedemscript_is_multisig fi.multisig_redeemscript = Except.ok ())
    (hmp : env.check_multisig_has_pubkey fi.multisig_redeemscript
      env.tweakable_pubkey fi.multisig_nonce = Except.ok ())
    (hhp : env.check_hashlock_has_pubkey fi.contract_redeemscript
      env.tweakable_pubkey fi.hashlock_nonce = Except.ok ())
    (hspk : env.redeemscript_to_scriptpubkey fi.contract_redeemscript = Except.ok spk)
    (hcache : does_prevout_match_cached_contract cache
      (OutPoint.mk fi.funding_txid idx) spk = true)
    (hhash : env.check_hashvalues_are_equal (ProofOfFunding.mk [fi] nl) = Except.ok h) :
    (L - nl = MIN_CONTRACT_REACTION_TIME →
      verify_proof_of_funding env cache (ProofOfFunding.mk [fi] nl) = Except.ok h) ∧
    (L - nl = MIN_CONTRACT_REACTION_TIME - 1 →
      verify_proof_of_funding env cache (ProofOfFunding.mk [fi] nl) =
        Except.error "Next hop locktime too close to current hop locktime") := by
  have hclt : ¬ c < REQUIRED_CONFIRMS := Nat.not_lt.mpr hc
  constructor
  · intro hL
    have hnotlt : ¬ L - nl < MIN_CONTRACT_REACTION_TIME := by omega
    simp [verify_proof_of_funding, verifyFundingEntries, verifyFundingEntry,
      hread, hfind, htxo, hms, hmp, hhp, hspk, hcache, hhash, hnotlt, hclt]
  · intro hL
    have hlt : L - nl < MIN_CONTRACT_REACTION_TIME := by
      rw [hL]; decide
    simp [verify_proof_of_funding, verifyFundingEntries, verifyFundingEntry,
      hread, hlt]

/-- Witness for C4: a concrete run through the accepting boundary. -/
theorem verify_pof_locktime_boundary_witness :
    verify_proof_of_funding envA cacheA (ProofOfFunding.mk [fiA] 100) =
      Except.ok 9 :=
  (verify_pof_locktime_boundary envA cacheA fiA 100 148 0 1 5 9
    rfl rfl rfl (by decide) rfl rfl rfl rfl (by decide) rfl).1 (by decide)

/-- C5: with every other check succeeding, a funding output reported with
exactly `REQUIRED_CONFIRMS` (1) confirmations is accepted, zero confirmations
is rejected, and a missing output is rejected. -/
theorem verify_pof_confirmation_boundary
    (env : MakerEnv) (cache : ContractCache) (fi : FundingInfo)
    (nl L idx spk h : Nat)
    (hread : env.read_contract_locktime fi.contract_redeemscript = Except.ok L)
    (hL : MIN_CONTRACT_REACTION_TIME ≤ L - nl)
    (hfind : env.find_funding_output_index fi = Except.ok idx)
    (hms : env.check_reedemscript_is_multisig fi.multisig_redeemscript = Except.ok ())
    (hmp : env.check_multisig_has_pubkey fi.multisig_redeemscript
      env.tweakable_pubkey fi.multisig_nonce = Except.ok ())
    (hhp : env.check_hashlock_has_pubkey fi.contract_redeemscript
      env.tweakable_pubkey fi.hashlock_nonce = Except.ok ())
    (hspk : env.redeemscript_to_scriptpubkey fi.contract_redeemscript = Except.ok spk)
    (hcache : does_prevout_match_cached_contract cache
      (OutPoint.mk fi.funding_txid idx) spk = true)
    (hhash : env.check_hashvalues_are_equal (ProofOfFunding.mk [fi] nl) = Except.ok h) :
    (env.get_tx_out fi.funding_txid idx = some (TxOutInfo.mk REQUIRED_CONFIRMS) →
      verify_proof_of_funding env cache (ProofOfFunding.mk [fi] nl) = Except.ok h) ∧
    (env.get_tx_out fi.funding_txid idx = some (TxOutInfo.mk 0) →
      verify_proof_of_funding env cache (ProofOfFunding.mk [fi] nl) =
        Except.error "funding tx not confirmed to required depth") ∧
    (env.get_tx_out fi.funding_txid idx = none →
      verify_proof_of_funding env cache (ProofOfFunding.mk [fi] nl) =
        Except.error "funding tx output doesnt exist") := by
  have hnotlt : ¬ L - nl < MIN_CONTRACT_REACTION_TIME := Nat.not_lt.mpr hL
  refine ⟨fun htxo => ?_, fun htxo => ?_, fun htxo => ?_⟩
  · simp [verify_proof_of_funding, verifyFundingEntries, verifyFundingEntry,
      hread, hfind, htxo, hms, hmp, hhp, hspk, hcache, hhash, hnotlt]
  · simp [verify_proof_of_funding, verifyFundingEntries, verifyFundingEntry,
      hread, hfind, htxo, hnotlt, REQUIRED_CONFIRMS]
  · simp [verify_proof_of_funding, verifyFundingEntries, verifyFundingEntry,
      hread, hfind, htxo, hnotlt]

/-- Witness for C5: the concrete environment `envA` reports 1 confirmation
and the entry is accepted. -/
theorem verify_pof_confirmation_boundary_witness :
    verify_proof_of_funding envA cacheA (ProofOfFunding.mk [fiA] 100) =
      Except.ok 9 ∧ envA.get_tx_out fiA.funding_txid 0 = some (TxOutInfo.mk 1) := by
  refine ⟨?_, rfl⟩
  exact (verify_pof_confirmation_boundary envA cacheA fiA 100 148 0 5 9
    rfl (by decide) rfl rfl rfl rfl rfl (by decide) rfl).1 rfl

/-- C10: a `ProofOfFunding` message with an empty `confirmed_funding_txes`
list is rejected, so a hashvalue is never derived from zero funding entries. -/
theorem verify_pof_rejects_empty
    (env : MakerEnv) (cache : ContractCache) (message : ProofOfFunding)
    (hempty : message.confirmed_funding_txes = []) :
    verify_proof_of_funding env cache message =
      Except.error "No funding txs provided by Taker" := by
  simp [verify_proof_of_funding, hempty]

/-- Witness for C10: the empty message is rejected in the concrete
environment. -/
theorem verify_pof_rejects_empty_witness :
    verify_proof_of_funding envA cacheA (ProofOfFunding.mk [] 100) =
      Except.error "No funding txs provided by Taker" :=
  verify_pof_rejects_empty envA cacheA (ProofOfFunding.mk [] 100) rfl

end Coinswap
